import Mathlib

/-!
Verification of the MultiPing subnet sweeper (`mping.py`) against its
natural-language specification.

The development shallowly embeds the Python source:

* Python strings are modelled as `List Char` (`PyStr`); `str.split` is
  `splitOnSep`, `int(...)` is `pyInt`.
* `subnet_calculator` (mping.py lines 55-70) is embedded octet-wise after
  the input string has been split and parsed; the call into the Python
  standard library `ipaddress.ip_network(...).hosts()` is modelled by
  `ipNetworkHosts` following the library's documented semantics.
* The `PingResult` / `NSLookupResult` regex parsers, the `ping` worker,
  the `ThreadPool` scheduler, option parsing and the validation/flow of
  `main` are embedded further below.
-/

set_option maxRecDepth 100000

namespace MPing

/-! ### Octet-level subnet arithmetic (mping.py lines 55-70) -/

/-- Embedding of mping.py line 60:
`mask = [(((1<<32)-1) << (32-cidr) >> i) & 255 for i in reversed(range(0, 32, 8))]`.
Python integers are unbounded, as is `Nat`, so no extra truncation is needed. -/
def maskOctets (cidr : Nat) : List Nat :=
  [24, 16, 8, 0].map (fun i => ((2 ^ 32 - 1) <<< (32 - cidr)) >>> i &&& 255)

/-- Embedding of mping.py line 61: `netw = [addr[i] & mask[i] for i in range(4)]`
(for the four-octet address lists produced by the validated caller). -/
def netwOctets (addr : List Nat) (cidr : Nat) : List Nat :=
  List.zipWith (fun a m => a &&& m) addr (maskOctets cidr)

/-- Embedding of mping.py line 62:
`bcas = [(addr[i] & mask[i]) | (255^mask[i]) for i in range(4)]`. -/
def bcasOctets (addr : List Nat) (cidr : Nat) : List Nat :=
  List.zipWith (fun a m => (a &&& m) ||| (255 ^^^ m)) addr (maskOctets cidr)

/-- Value of a four-octet list as a 32-bit integer (most significant octet
first), as used by the `ipaddress` library when it parses the dotted string
`netw_str` that the source hands to `ip_network`. -/
def toNat32 (l : List Nat) : Nat := l.foldl (fun acc o => acc * 256 + o) 0

/-- Model of the Python standard library call
`list(ipaddress.ip_network(netw_str + "/" + cidr).hosts())` (mping.py line 70),
following the documented semantics of `IPv4Network.hosts()`:
for prefixes up to /30 it yields every address strictly between the network
and broadcast addresses in ascending order; a /31 yields both of its two
addresses; a /32 yields the single address.  `ip_network` raises `ValueError`
(modelled as `none`) when the prefix exceeds 32 or the address has host bits
set; the source always passes the already-masked network address, so the
`none` branch is unreachable from `subnet_calculator`. -/
def ipNetworkHosts (n cidr : Nat) : Option (List Nat) :=
  if 32 < cidr then none
  else if n % 2 ^ (32 - cidr) ≠ 0 then none
  else some (
    if cidr = 32 then [n]
    else if cidr = 31 then [n, n + 1]
    else (List.range (2 ^ (32 - cidr) - 2)).map (fun i => n + 1 + i))

/-- The values computed by `subnet_calculator` (mping.py lines 55-70): the
netmask, network and broadcast octet lists that the function prints, and the
host list it returns. -/
structure SubnetInfo where
  mask : List Nat
  netw : List Nat
  bcas : List Nat
  hosts : Option (List Nat)
deriving DecidableEq, Repr

/-- Embedding of `subnet_calculator` (mping.py lines 55-70) after its input
string `ip_subnet` has been split on `/` and the octets and cidr parsed to
integers (the string-level wrapper appears below as `subnetCalcStr`). -/
def subnet_calculator (addr : List Nat) (cidr : Nat) : SubnetInfo :=
  { mask := maskOctets cidr
    netw := netwOctets addr cidr
    bcas := bcasOctets addr cidr
    hosts := ipNetworkHosts (toNat32 (netwOctets addr cidr)) cidr }

/-! ### Python string primitives -/

/-- Python strings are modelled as lists of characters. -/
abbrev PyStr := List Char

/-- Model of Python `str.split(sep)` for a nonempty separator: the input is
scanned left to right and cut at each non-overlapping occurrence of `sep`
(worker of `splitOnSep`, accumulating the current chunk reversed).  The
`fuel` argument makes the recursion structural so that the function reduces
inside the kernel; every step consumes at least one input character, so
`fuel = input length` never runs out (the `0` fallback is unreachable from
`splitOnSep`). -/
def splitGo (sep : PyStr) : Nat → PyStr → PyStr → List PyStr
  | _, acc, [] => [acc.reverse]
  | 0, acc, s => [acc.reverse ++ s]
  | fuel + 1, acc, c :: cs =>
    if sep.isPrefixOf (c :: cs) then
      acc.reverse :: splitGo sep fuel [] (List.drop (sep.length - 1) cs)
    else
      splitGo sep fuel (c :: acc) cs

/-- Python `s.split(sep)` (nonempty `sep`). -/
def splitOnSep (sep s : PyStr) : List PyStr := splitGo sep s.length [] s

/-- Whitespace characters recognised by Python's `int(...)` and by the `\s`
regex class in ASCII mode: space, tab, newline, carriage return, vertical
tab and form feed (unicode whitespace is out of scope for this model). -/
def isPySpace (c : Char) : Bool :=
  c = ' ' || c = '\t' || c = '\n' || c = '\r' || c = '\x0b' || c = '\x0c'

/-- Digit-run scanner of the Python `int` literal grammar: after an initial
digit, further digits may be separated by single underscores. -/
def digitsLoop (acc : Nat) : PyStr → Option Nat
  | [] => some acc
  | c :: cs =>
    if c.isDigit then digitsLoop (acc * 10 + (c.toNat - 48)) cs
    else if c = '_' then
      match cs with
      | [] => none
      | d :: cs' => if d.isDigit then digitsLoop (acc * 10 + (d.toNat - 48)) cs' else none
    else none

/-- Unsigned part of the Python `int(str)` grammar: a nonempty digit
sequence with optional single underscores between digits. -/
def pyNatCore : PyStr → Option Nat
  | [] => none
  | c :: cs => if c.isDigit then digitsLoop (c.toNat - 48) cs else none

/-- Python `str.strip()` as applied by `int(...)` to its argument. -/
def pyStrip (s : PyStr) : PyStr :=
  ((s.dropWhile (fun c => isPySpace c)).reverse.dropWhile (fun c => isPySpace c)).reverse

/-- Model of Python `int(s)` for ASCII decimal inputs: optional surrounding
whitespace, an optional sign, then digits with optional single underscores
between them; `none` models the `ValueError` raised on any other input. -/
def pyInt (s : PyStr) : Option Int :=
  match pyStrip s with
  | [] => none
  | c :: rest =>
    if c = '+' then (pyNatCore rest).map (fun n => Int.ofNat n)
    else if c = '-' then (pyNatCore rest).map (fun n => -Int.ofNat n)
    else (pyNatCore (c :: rest)).map (fun n => Int.ofNat n)

/-! ### PingResult (mping.py lines 9-40) -/

/-- Literal `"Pinging "` opening the ip regex of mping.py line 11. -/
def pingTag : PyStr := "Pinging ".toList

/-- Literal completing the ip regex of mping.py line 11; the lazy group
`(.*?)` captures the shortest prefix after which this literal occurs. -/
def pingPat : PyStr := " with 32 bytes of data".toList

/-- Minimal-prefix search implementing a lazy `(.*?)` group: returns the
shortest `g` such that `pat` occurs immediately after `g` in the input. -/
def findLazy (pat : PyStr) : PyStr → Option PyStr
  | [] => if pat.isPrefixOf ([] : PyStr) then some [] else none
  | c :: cs =>
    if pat.isPrefixOf (c :: cs) then some []
    else (findLazy pat cs).map (fun g => c :: g)

/-- Match of `re.match(r"Pinging (?:(.*?) )with 32 bytes of data", line)`
(mping.py line 11), returning group 1. -/
def matchPingIp (line : PyStr) : Option PyStr :=
  if pingTag.isPrefixOf line then findLazy pingPat (line.drop pingTag.length) else none

/-- Consume the literal `lit` at the head of `s`. -/
def dropLit (lit : PyStr) (s : PyStr) : Option PyStr :=
  if lit.isPrefixOf s then some (s.drop lit.length) else none

/-- Consume a greedy nonempty digit run `(\d+)`; since every following
literal in the regexes below starts with a non-digit, the greedy run with
no backtracking is exactly the regex semantics. -/
def takeDigitRun (s : PyStr) : Option (PyStr × PyStr) :=
  let run := s.takeWhile (fun c => c.isDigit)
  if run = [] then none else some (run, s.dropWhile (fun c => c.isDigit))

/-- Match of the stats regex of mping.py line 12:
four digit groups for Sent, Received, Lost and percent loss; each literal
and digit group is consumed in turn, `none` on the first mismatch. -/
def matchStats (line : PyStr) : Option (PyStr × PyStr × PyStr × PyStr) :=
  match dropLit "    Packets: Sent = ".toList line with
  | none => none
  | some r1 =>
    match takeDigitRun r1 with
    | none => none
    | some (g1, r2) =>
      match dropLit ", Received = ".toList r2 with
      | none => none
      | some r3 =>
        match takeDigitRun r3 with
        | none => none
        | some (g2, r4) =>
          match dropLit ", Lost = ".toList r4 with
          | none => none
          | some r5 =>
            match takeDigitRun r5 with
            | none => none
            | some (g3, r6) =>
              match dropLit " (".toList r6 with
              | none => none
              | some r7 =>
                match takeDigitRun r7 with
                | none => none
                | some (g4, r8) =>
                  match dropLit "% loss),".toList r8 with
                  | none => none
                  | some _ => some (g1, g2, g3, g4)

/-- Match of the time regex of mping.py line 13: three digit groups for
Minimum, Maximum and Average. -/
def matchTime (line : PyStr) : Option (PyStr × PyStr × PyStr) :=
  match dropLit "    Minimum = ".toList line with
  | none => none
  | some r1 =>
    match takeDigitRun r1 with
    | none => none
    | some (g1, r2) =>
      match dropLit "ms, Maximum = ".toList r2 with
      | none => none
      | some r3 =>
        match takeDigitRun r3 with
        | none => none
        | some (g2, r4) =>
          match dropLit "ms, Average = ".toList r4 with
          | none => none
          | some r5 =>
            match takeDigitRun r5 with
            | none => none
            | some (g3, r6) =>
              match dropLit "ms".toList r6 with
              | none => none
              | some _ => some (g1, g2, g3)

/-- Canonical Windows `ping` statistics line built from four digit groups,
used to state what `matchStats` extracts. -/
def mkStatsLine (s r l pct rest : PyStr) : PyStr :=
  "    Packets: Sent = ".toList ++ s ++ ", Received = ".toList ++ r
    ++ ", Lost = ".toList ++ l ++ " (".toList ++ pct ++ "% loss),".toList ++ rest

/-- Canonical Windows round-trip-times line built from three digit groups,
used to state what `matchTime` extracts. -/
def mkTimeLine (mn mx av rest : PyStr) : PyStr :=
  "    Minimum = ".toList ++ mn ++ "ms, Maximum = ".toList ++ mx
    ++ "ms, Average = ".toList ++ av ++ "ms".toList ++ rest

/-- Transcript of a run in which the host never replies across the ping
utility's four default attempts (Windows format). -/
def timeoutTranscript : PyStr :=
  ("Pinging 10.0.0.7 with 32 bytes of data:\nRequest timed out.\nRequest timed out.\nRequest timed out.\nRequest timed out.\n\nPing statistics for 10.0.0.7:\n    Packets: Sent = 4, Received = 0, Lost = 4 (100% loss),\n").toList

/-- Fields of the `PingResult` object (mping.py lines 9-40); each regex
group is stored as a string, exactly as in the source. -/
structure PingResult where
  ping_result : PyStr
  ip : Option PyStr
  sent : Option PyStr
  received : Option PyStr
  lost : Option PyStr
  lost_percent : Option PyStr
  trip_time : Option PyStr
deriving DecidableEq, Repr

/-- Body of the line loop of `PingResult.__init__` (mping.py lines 22-40):
each of the three regexes is tried on the line and the matching one
overwrites the corresponding fields. -/
def pingLineStep (r : PingResult) (line : PyStr) : PingResult :=
  let r1 := match matchPingIp line with
    | some g => { r with ip := some g }
    | none => r
  let r2 := match matchStats line with
    | some (g1, g2, g3, g4) =>
      { r1 with sent := some g1, received := some g2, lost := some g3, lost_percent := some g4 }
    | none => r1
  match matchTime line with
  | some (g1, g2, g3) =>
    let tt := "min: ".toList ++ g1 ++ ", max: ".toList ++ g2 ++ ", avg: ".toList ++ g3
    { r2 with trip_time := some tt }
  | none => r2

/-- The `matchTime` branch stores the formatted string of mping.py
lines 36-40; note the regex only ever sees newline-free lines because the
transcript is split on newlines first (mping.py line 22). -/
def pingResultInit (t : PyStr) : PingResult :=
  (splitOnSep ['\n'] t).foldl pingLineStep
    { ping_result := t, ip := none, sent := none, received := none,
      lost := none, lost_percent := none, trip_time := none }

/-! ### NSLookupResult (mping.py lines 43-52) -/

/-- Literal opening the name regex `Name:\s+(.*)` of mping.py line 45. -/
def nsTag : PyStr := "Name:".toList

/-- Match of `re.match(r"Name:\s+(.*)", line)`: the literal `Name:`, at
least one whitespace character, then the greedy rest of the line. -/
def matchName (line : PyStr) : Option PyStr :=
  if nsTag.isPrefixOf line then
    let rest := line.drop nsTag.length
    if rest.takeWhile (fun c => isPySpace c) = [] then none
    else some (rest.dropWhile (fun c => isPySpace c))
  else none

/-- Line loop of `NSLookupResult.__init__` (mping.py lines 48-52): the
first matching line sets the field and the loop breaks. -/
def nsLoop : List PyStr → Option PyStr
  | [] => none
  | l :: ls =>
    match matchName l with
    | some n => some n
    | none => nsLoop ls

/-- Fields of the `NSLookupResult` object (mping.py lines 43-52). -/
structure NSLookupResult where
  nslookup_result : PyStr
  nslookup : Option PyStr
deriving DecidableEq, Repr

/-- Embedding of `NSLookupResult.__init__` (mping.py lines 44-52). -/
def nsLookupInit (t : PyStr) : NSLookupResult :=
  { nslookup_result := t, nslookup := nsLoop (splitOnSep ['\n'] t) }

/-- Refinement definition following the spec's words for the Reverse
Resolver: "Returns every resolved name present in the response, in
response order", to be compared with the single-name field the code
actually produces. -/
def specResolveAll (t : PyStr) : List PyStr :=
  (splitOnSep ['\n'] t).filterMap matchName

/-! ### Worker and scheduler (mping.py lines 156-172) -/

/-- The merged dictionary `pr.update(ns)` returned by the `ping` worker
(mping.py lines 164-167): all `PingResult` fields followed by both
`NSLookupResult` fields. -/
structure Record where
  ping_result : PyStr
  ip : Option PyStr
  sent : Option PyStr
  received : Option PyStr
  lost : Option PyStr
  lost_percent : Option PyStr
  trip_time : Option PyStr
  nslookup_result : PyStr
  nslookup : Option PyStr
deriving DecidableEq, Repr

/-- Shell command of mping.py line 161. -/
def pingCommand (ip : PyStr) : PyStr := "ping ".toList ++ ip

/-- Shell command of mping.py line 162 (a space and the nameserver are
appended even when no `--nameserver=` option was given). -/
def nslookupCommand (ip ns : PyStr) : PyStr :=
  "nslookup ".toList ++ ip ++ ' ' :: ns

/-- The external world: `os.popen(cmd).read()` is a function from command
strings to their captured standard output. -/
structure World where
  run : PyStr → PyStr

/-- Embedding of the worker `ping(ip)` (mping.py lines 156-167). -/
def ping (w : World) (ns ip : PyStr) : Record :=
  let pr := pingResultInit (w.run (pingCommand ip))
  let nsr := nsLookupInit (w.run (nslookupCommand ip ns))
  { ping_result := pr.ping_result, ip := pr.ip, sent := pr.sent, received := pr.received,
    lost := pr.lost, lost_percent := pr.lost_percent, trip_time := pr.trip_time,
    nslookup_result := nsr.nslookup_result, nslookup := nsr.nslookup }

/-- Model of `multiprocessing.pool.ThreadPool(n_threads)` (mping.py line
171): the pool is created with exactly the configured number of worker
threads; the host count plays no role. -/
structure ThreadPool where
  processes : Int
deriving DecidableEq, Repr

/-- Result of the task for input index `i`. -/
def taskOut (f : α → β) (xs : List α) (i : Nat) : Option β := (xs.get? i).map f

/-- Concurrent execution model of `ThreadPool.map`: tasks complete in an
arbitrary order (the `order` list of input indices) and each completed
task writes its result into the slot keyed by its input index. -/
def runTasks (f : α → β) (xs : List α) : List Nat → (Nat → Option β) → (Nat → Option β)
  | [], slots => slots
  | i :: rest, slots => runTasks f xs rest (fun j => if j = i then taskOut f xs i else slots j)

/-- Read the result slots out in input order; `none` if some slot was
never written (that task never completed). -/
def collectFrom (slots : Nat → Option β) : List Nat → Option (List β)
  | [] => some []
  | i :: r =>
    match slots i, collectFrom slots r with
    | some v, some vs => some (v :: vs)
    | _, _ => none

/-- Model of `tp.map(ping, ips)` (mping.py line 172) with an explicit task
completion order: run all tasks, then collect the slots keyed by input
position. -/
def poolMap (_tp : ThreadPool) (f : α → β) (xs : List α) (order : List Nat) : Option (List β) :=
  collectFrom (runTasks f xs order (fun _ => none)) (List.range xs.length)

/-- The value `tp.map(ping, ips)` returns once every task has completed:
the results in input order (the order-preservation guarantee of
`ThreadPool.map`, proved below to agree with `poolMap` for every complete
completion order). -/
def tpMap (_tp : ThreadPool) (f : α → β) (xs : List α) : List β := xs.map f

/-! ### Option parsing and validation (mping.py lines 81-139) -/

/-- Option tag of mping.py line 92. -/
def csvOptTag : PyStr := "--csv=".toList

/-- Option tag of mping.py line 96. -/
def threadsOptTag : PyStr := "--threads=".toList

/-- Option tag of mping.py line 107. -/
def nsOptTag : PyStr := "--nameserver=".toList

/-- Run configuration accumulated by the option loop (mping.py lines
85-108), with the source's defaults. -/
structure Config where
  use_csv : Bool
  csv_filename : PyStr
  n_threads : Int
  custom_nameserver : PyStr
deriving DecidableEq, Repr

/-- Defaults of mping.py lines 85-90. -/
def defaultConfig : Config :=
  { use_csv := false, csv_filename := [], n_threads := 256, custom_nameserver := [] }

/-- Refinement definition following the spec's words for the scheduler:
"worker_count is clamped to min(configured_threads, len(hosts))". -/
def specWorkerCount (cfg : Config) (hosts : List Nat) : Int :=
  min cfg.n_threads (hosts.length : Int)

/-- Embedding of the option loop (mping.py lines 91-108).  Each option is
tested against all three tags in source order; an unparseable or
out-of-range `--threads=` value aborts with the corresponding message
(mping.py lines 97-105); unknown options are silently ignored. -/
def parseOptionsGo : List PyStr → Config → Except String Config
  | [], c => .ok c
  | o :: os, c =>
    let c1 :=
      if csvOptTag.isPrefixOf o then
        { c with use_csv := true, csv_filename := (splitOnSep csvOptTag o).getD 1 [] }
      else c
    if threadsOptTag.isPrefixOf o then
      match pyInt ((splitOnSep threadsOptTag o).getD 1 []) with
      | none => .error "nthreads must be an integer"
      | some n =>
        if n < 1 ∨ 1024 < n then .error "nthreads must be in the range [1-1024]"
        else
          let c2 := { c1 with n_threads := n }
          let c3 :=
            if nsOptTag.isPrefixOf o then
              { c2 with custom_nameserver := (splitOnSep nsOptTag o).getD 1 [] }
            else c2
          parseOptionsGo os c3
    else
      let c3 :=
        if nsOptTag.isPrefixOf o then
          { c1 with custom_nameserver := (splitOnSep nsOptTag o).getD 1 [] }
        else c1
      parseOptionsGo os c3

/-- Option parsing for one invocation, from the defaults. -/
def parseOptions (opts : List PyStr) : Except String Config :=
  parseOptionsGo opts defaultConfig

/-- Octet loop of mping.py lines 132-139: the first octet that fails to
parse yields the `ValueError` message, the first out-of-range octet the
range message. -/
def checkOctets : List PyStr → Option String
  | [] => none
  | s :: rest =>
    match pyInt s with
    | none => some "Not a valid ip"
    | some v => if v < 0 ∨ 255 < v then some "ip contains an invalid value" else checkOctets rest

/-- Embedding of the input validation of `main` (mping.py lines 81-139):
option loop, subnet presence, four-octet shape, subnet range, octet
values, in source order; an `.error` is a printed message followed by
`return` before any network activity. -/
def mainValidate (ipInput : PyStr) (options : List PyStr) : Except String Config :=
  match parseOptions options with
  | .error m => .error m
  | .ok cfg =>
    if (splitOnSep ['/'] ipInput).length ≠ 2 then .error "Must include a subnet"
    else if (splitOnSep ['.'] ipInput).length ≠ 4 then .error "Not in a valid ip address"
    else
      match pyInt ((splitOnSep ['/'] ipInput).getD 1 []) with
      | none => .error "Not a valid subnet"
      | some sv =>
        if sv < 16 then .error "Too broad a subnet. Must be >= 16"
        else if 32 < sv then .error "Not a valid subnet. Must be <= 32"
        else
          match checkOctets (splitOnSep ['.'] ((splitOnSep ['/'] ipInput).getD 0 [])) with
          | some m => .error m
          | none => .ok cfg

/-- String-level wrapper of `subnet_calculator` (mping.py lines 55-59):
split on `/`, parse the octets and the cidr, then run the octet-level
embedding.  Paths on which the Python function would raise, or which
`main`'s validation makes unreachable (a part count other than two, an
unparseable or negative octet or cidr, more or fewer than four octets),
are modelled as `none`. -/
def subnetCalcStr (s : PyStr) : Option SubnetInfo :=
  match splitOnSep ['/'] s with
  | [addrStr, cidrStr] =>
    match (splitOnSep ['.'] addrStr).mapM pyInt, pyInt cidrStr with
    | some octs, some cidr =>
      if octs.length = 4 ∧ (∀ o ∈ octs, 0 ≤ o) ∧ 0 ≤ cidr then
        some (subnet_calculator (octs.map Int.toNat) cidr.toNat)
      else none
    | _, _ => none
  | _ => none

/-! ### The main flow (mping.py lines 73-191) -/

/-- Outcome of the CSV/report phase (mping.py lines 178-191). -/
inductive CsvOutcome
  | wroteCsv
  | printedFallback
  | printedTable
deriving DecidableEq, Repr

/-- Result of the `open`/`write` call of mping.py lines 184-185, as decided
by the external file system. -/
inductive WriteOutcome
  | ok
  | permissionError
  | otherError
deriving DecidableEq, Repr

/-- External events of one run: whether `KeyboardInterrupt` is raised at
the confirmation prompt (mping.py lines 150-154), whether it is raised
while `tp.map` is outstanding (mping.py lines 170-176), and how the CSV
write call behaves. -/
structure Events where
  promptInterrupt : Bool
  sweepInterrupt : Bool
  writeResult : WriteOutcome

/-- Observable outcome of one `main` run.  `invalid` is a validation
message printed before any network activity; `crashed` is an uncaught
exception. -/
inductive MainOutcome
  | invalid (msg : String)
  | cancelledAtPrompt
  | killedMidSweep
  | completed (records : List Record) (csv : CsvOutcome)
  | crashed
deriving DecidableEq, Repr

/-- Dotted string representation of a host address, as produced by
`str(IPv4Address)` when the worker formats `f"ping {ip}"`. -/
def ipToPyStr (n : Nat) : PyStr :=
  Nat.toDigits 10 (n >>> 24 &&& 255) ++ '.' ::
    (Nat.toDigits 10 (n >>> 16 &&& 255) ++ '.' ::
      (Nat.toDigits 10 (n >>> 8 &&& 255) ++ '.' :: Nat.toDigits 10 (n &&& 255)))

/-- CSV/report phase of `main` (mping.py lines 178-191): with `--csv`, a
`PermissionError` from the write is caught and the table is printed
instead; any other exception from the write propagates (crash); without
`--csv` the table is printed. -/
def csvPhase (cfg : Config) (records : List Record) (wr : WriteOutcome) : MainOutcome :=
  if cfg.use_csv then
    match wr with
    | .ok => .completed records .wroteCsv
    | .permissionError => .completed records .printedFallback
    | .otherError => .crashed
  else .completed records .printedTable

/-- Sweep phase of `main` (mping.py lines 169-176): a `KeyboardInterrupt`
while `tp.map` is outstanding kills the threads and returns, discarding
all partial work; otherwise the pool's ordered result list flows into the
report phase. -/
def sweepPhase (cfg : Config) (ev : Events) (w : World) (ips : List Nat) : MainOutcome :=
  if ev.sweepInterrupt then .killedMidSweep
  else
    csvPhase cfg
      (tpMap (ThreadPool.mk cfg.n_threads)
        (fun ipn => ping w cfg.custom_nameserver (ipToPyStr ipn)) ips)
      ev.writeResult

/-- Embedding of `main` (mping.py lines 73-191) after `sys.argv` has been
read: validation, subnet enumeration, the confirmation prompt — which the
source shows only when more than one host is to be swept (mping.py line
146) — then the sweep and report phases. -/
def mainRun (ipInput : PyStr) (options : List PyStr) (ev : Events) (w : World) : MainOutcome :=
  match mainValidate ipInput options with
  | .error m => .invalid m
  | .ok cfg =>
    match subnetCalcStr ipInput with
    | none => .crashed
    | some info =>
      match info.hosts with
      | none => .crashed
      | some ips =>
        if 1 < ips.length then
          if ev.promptInterrupt then .cancelledAtPrompt
          else sweepPhase cfg ev w ips
        else sweepPhase cfg ev w ips

/-! ### Bitwise helper lemmas -/

theorem byte_comp_land (x x' y y' : Nat) (hy : y < 2 ^ 8) (hy' : y' < 2 ^ 8) :
    (2 ^ 8 * x + y) &&& (2 ^ 8 * x' + y') = 2 ^ 8 * (x &&& x') + (y &&& y') := by
  apply Nat.eq_of_testBit_eq
  intro j
  rw [Nat.testBit_and, Nat.testBit_mul_pow_two_add _ hy,
    Nat.testBit_mul_pow_two_add _ hy',
    Nat.testBit_mul_pow_two_add _ (Nat.and_lt_two_pow _ hy')]
  by_cases h : j < 8 <;> simp [h]

theorem byte_comp_lor (x x' y y' : Nat) (hy : y < 2 ^ 8) (hy' : y' < 2 ^ 8) :
    (2 ^ 8 * x + y) ||| (2 ^ 8 * x' + y') = 2 ^ 8 * (x ||| x') + (y ||| y') := by
  apply Nat.eq_of_testBit_eq
  intro j
  rw [Nat.testBit_or, Nat.testBit_mul_pow_two_add _ hy,
    Nat.testBit_mul_pow_two_add _ hy',
    Nat.testBit_mul_pow_two_add _ (Nat.or_lt_two_pow hy hy')]
  by_cases h : j < 8 <;> simp [h]

theorem byte_comp_xor (x x' y y' : Nat) (hy : y < 2 ^ 8) (hy' : y' < 2 ^ 8) :
    (2 ^ 8 * x + y) ^^^ (2 ^ 8 * x' + y') = 2 ^ 8 * (x ^^^ x') + (y ^^^ y') := by
  apply Nat.eq_of_testBit_eq
  intro j
  rw [Nat.testBit_xor, Nat.testBit_mul_pow_two_add _ hy,
    Nat.testBit_mul_pow_two_add _ hy',
    Nat.testBit_mul_pow_two_add _ (Nat.xor_lt_two_pow hy hy')]
  by_cases h : j < 8 <;> simp [h]

theorem toNat32_four (a b c d : Nat) :
    toNat32 [a, b, c, d] = 2 ^ 8 * (2 ^ 8 * (2 ^ 8 * a + b) + c) + d := by
  simp [toNat32, List.foldl]
  ring

theorem mask_oct_lt (p i : Nat) : ((2 ^ 32 - 1) <<< (32 - p)) >>> i &&& 255 < 2 ^ 8 :=
  Nat.lt_succ_of_le Nat.and_le_right

theorem toNat32_netw (a b c d p : Nat)
    (hb : b < 2 ^ 8) (hc : c < 2 ^ 8) (hd : d < 2 ^ 8) :
    toNat32 (netwOctets [a, b, c, d] p) = toNat32 [a, b, c, d] &&& toNat32 (maskOctets p) := by
  simp only [netwOctets, maskOctets, List.map, List.zipWith]
  rw [toNat32_four, toNat32_four, toNat32_four,
    byte_comp_land _ _ _ _ hd (mask_oct_lt p 0),
    byte_comp_land _ _ _ _ hc (mask_oct_lt p 8),
    byte_comp_land _ _ _ _ hb (mask_oct_lt p 16)]

theorem xor255_lt {m : Nat} (hm : m < 2 ^ 8) : 255 ^^^ m < 2 ^ 8 :=
  Nat.xor_lt_two_pow (by norm_num) hm

theorem bcas_generic (a b c d m0 m1 m2 m3 : Nat)
    (hm1 : m1 < 2 ^ 8) (hm2 : m2 < 2 ^ 8) (hm3 : m3 < 2 ^ 8) :
    toNat32 [(a &&& m0) ||| (255 ^^^ m0), (b &&& m1) ||| (255 ^^^ m1),
      (c &&& m2) ||| (255 ^^^ m2), (d &&& m3) ||| (255 ^^^ m3)]
      = toNat32 [a &&& m0, b &&& m1, c &&& m2, d &&& m3]
        ||| ((2 ^ 32 - 1) ^^^ toNat32 [m0, m1, m2, m3]) := by
  have h2 : (2 ^ 32 - 1 : Nat) = 2 ^ 8 * (2 ^ 8 * (2 ^ 8 * 255 + 255) + 255) + 255 := by
    norm_num
  rw [toNat32_four, toNat32_four, toNat32_four, h2,
    byte_comp_xor _ _ _ _ (by norm_num) hm3,
    byte_comp_xor _ _ _ _ (by norm_num) hm2,
    byte_comp_xor _ _ _ _ (by norm_num) hm1,
    byte_comp_lor _ _ _ _ (Nat.and_lt_two_pow _ hm3) (xor255_lt hm3),
    byte_comp_lor _ _ _ _ (Nat.and_lt_two_pow _ hm2) (xor255_lt hm2),
    byte_comp_lor _ _ _ _ (Nat.and_lt_two_pow _ hm1) (xor255_lt hm1)]

theorem toNat32_bcas (a b c d p : Nat) :
    toNat32 (bcasOctets [a, b, c, d] p)
      = toNat32 (netwOctets [a, b, c, d] p) ||| ((2 ^ 32 - 1) ^^^ toNat32 (maskOctets p)) := by
  simp only [bcasOctets, netwOctets, maskOctets, List.map, List.zipWith]
  exact bcas_generic a b c d _ _ _ _
    (mask_oct_lt p 16) (mask_oct_lt p 8) (mask_oct_lt p 0)

/-- Concrete facts about the netmask for every prefix length in the accepted
range: its 32-bit value, that its low `32 - p` bits are clear, and that its
complement is `2 ^ (32 - p) - 1`. -/
theorem mask_facts : ∀ p, p < 33 → 16 ≤ p →
    toNat32 (maskOctets p) = 2 ^ 32 - 2 ^ (32 - p) ∧
    toNat32 (maskOctets p) % 2 ^ (32 - p) = 0 ∧
    (2 ^ 32 - 1) ^^^ toNat32 (maskOctets p) = 2 ^ (32 - p) - 1 := by decide

theorem netw_mod (a b c d p : Nat)
    (hb : b < 2 ^ 8) (hc : c < 2 ^ 8) (hd : d < 2 ^ 8)
    (hp1 : 16 ≤ p) (hp2 : p ≤ 32) :
    toNat32 (netwOctets [a, b, c, d] p) % 2 ^ (32 - p) = 0 := by
  have hM := (mask_facts p (by omega) hp1).2.1
  rw [toNat32_netw a b c d p hb hc hd, ← Nat.and_pow_two_sub_one_eq_mod,
    Nat.and_assoc, Nat.and_pow_two_sub_one_eq_mod, hM, Nat.and_zero]

theorem bcas_eq (a b c d p : Nat)
    (hb : b < 2 ^ 8) (hc : c < 2 ^ 8) (hd : d < 2 ^ 8)
    (hp1 : 16 ≤ p) (hp2 : p ≤ 32) :
    toNat32 (bcasOctets [a, b, c, d] p)
      = toNat32 (netwOctets [a, b, c, d] p) + (2 ^ (32 - p) - 1) := by
  have hD := (mask_facts p (by omega) hp1).2.2
  rw [toNat32_bcas, hD]
  obtain ⟨q, hq⟩ := Nat.dvd_of_mod_eq_zero (netw_mod a b c d p hb hc hd hp1 hp2)
  rw [hq]
  exact (Nat.mul_add_lt_is_or (Nat.sub_lt (Nat.two_pow_pos _) Nat.one_pos) q).symm

theorem length_eq_four {l : List Nat} (h : l.length = 4) :
    ∃ a b c d, l = [a, b, c, d] := by
  match l, h with
  | [a, b, c, d], _ => exact ⟨a, b, c, d, rfl⟩

/-- C1 (counterexample): for the valid subnet `10.0.0.0/32` — whose prefix
length lies in the claimed range `[16,32]` — the enumerated host sequence is
`[167772160]` (the single address itself), of length `1`, which differs from
the claimed `2 ^ (32 - prefix) - 2` both as a natural number and as an
integer. -/
theorem c1_cex :
    (subnet_calculator [10, 0, 0, 0] 32).hosts = some [167772160] ∧
    ((167772160 : Nat) :: ([] : List Nat)).length ≠ 2 ^ (32 - 32) - 2 ∧
    (((167772160 : Nat) :: ([] : List Nat)).length : Int) ≠ (2 : Int) ^ (32 - 32) - 2 := by
  exact ⟨by decide, by decide, by decide⟩

/-- C1 (amended): for every valid four-octet address and prefix length `p`
in `[16,32]`, the enumerated host sequence is defined and in strictly
ascending numeric order; when `p ≤ 30` it excludes exactly the network and
broadcast addresses of the subnet and has length `2 ^ (32 - p) - 2`; a `/31`
instead yields exactly its two addresses (network and broadcast included)
and a `/32` yields the single address. -/
theorem c1_hosts_amended (addr : List Nat) (p : Nat)
    (hlen : addr.length = 4) (hoct : ∀ o ∈ addr, o < 256)
    (hp1 : 16 ≤ p) (hp2 : p ≤ 32) :
    ∃ l, (subnet_calculator addr p).hosts = some l ∧
      l.Pairwise (· < ·) ∧
      (p ≤ 30 → l.length = 2 ^ (32 - p) - 2 ∧
        (∀ x, x ∈ l ↔ (toNat32 (subnet_calculator addr p).netw ≤ x ∧
          x ≤ toNat32 (subnet_calculator addr p).bcas ∧
          x ≠ toNat32 (subnet_calculator addr p).netw ∧
          x ≠ toNat32 (subnet_calculator addr p).bcas))) ∧
      (p = 31 → l = [toNat32 (subnet_calculator addr p).netw,
        toNat32 (subnet_calculator addr p).bcas]) ∧
      (p = 32 → l = [toNat32 (subnet_calculator addr p).netw]) := by
  obtain ⟨a, b, c, d, rfl⟩ := length_eq_four hlen
  have ha : a < 2 ^ 8 := by simpa using hoct a (by simp)
  have hb : b < 2 ^ 8 := by simpa using hoct b (by simp)
  have hc : c < 2 ^ 8 := by simpa using hoct c (by simp)
  have hd : d < 2 ^ 8 := by simpa using hoct d (by simp)
  have hmod := netw_mod a b c d p hb hc hd hp1 hp2
  have hbc := bcas_eq a b c d p hb hc hd hp1 hp2
  have h32 : ¬ 32 < p := by omega
  simp only [subnet_calculator, ipNetworkHosts, h32, if_false, ne_eq, hmod,
    not_true_eq_false, reduceIte]
  set n := toNat32 (netwOctets [a, b, c, d] p) with hn
  rcases Nat.lt_or_ge p 31 with h30 | h31
  · have hne32 : ¬ p = 32 := by omega
    have hne31 : ¬ p = 31 := by omega
    have h4 : 4 ≤ 2 ^ (32 - p) := by
      calc (4 : Nat) = 2 ^ 2 := by norm_num
      _ ≤ 2 ^ (32 - p) := Nat.pow_le_pow_right (by norm_num) (by omega)
    refine ⟨_, by rw [if_neg hne32, if_neg hne31], ?_, ?_, by simp [hne31], by simp [hne32]⟩
    · rw [List.pairwise_map]
      exact (List.pairwise_lt_range _).imp (fun h => by omega)
    · intro hp30
      refine ⟨by simp, ?_⟩
      intro x
      simp only [List.mem_map, List.mem_range, hbc]
      constructor
      · rintro ⟨i, hi, rfl⟩
        omega
      · rintro ⟨h1, h2, h3, h4'⟩
        exact ⟨x - (n + 1), by omega, by omega⟩
  · rcases Nat.lt_or_ge p 32 with h31' | h32'
    · have he31 : p = 31 := by omega
      subst he31
      refine ⟨[n, n + 1], by norm_num, by simp, by omega, ?_, by omega⟩
      intro _
      rw [hbc]
      norm_num
    · have he32 : p = 32 := by omega
      subst he32
      exact ⟨[n], by norm_num, by simp, by omega, by omega, fun _ => rfl⟩

/-- C1 (witness): the amended theorem applied to the concrete subnet
`10.0.0.0/30`. -/
theorem c1_hosts_amended_witness :
    ∃ l, (subnet_calculator [10, 0, 0, 0] 30).hosts = some l ∧
      l.Pairwise (· < ·) ∧
      (30 ≤ 30 → l.length = 2 ^ (32 - 30) - 2 ∧
        (∀ x, x ∈ l ↔ (toNat32 (subnet_calculator [10, 0, 0, 0] 30).netw ≤ x ∧
          x ≤ toNat32 (subnet_calculator [10, 0, 0, 0] 30).bcas ∧
          x ≠ toNat32 (subnet_calculator [10, 0, 0, 0] 30).netw ∧
          x ≠ toNat32 (subnet_calculator [10, 0, 0, 0] 30).bcas))) ∧
      (30 = 31 → l = [toNat32 (subnet_calculator [10, 0, 0, 0] 30).netw,
        toNat32 (subnet_calculator [10, 0, 0, 0] 30).bcas]) ∧
      (30 = 32 → l = [toNat32 (subnet_calculator [10, 0, 0, 0] 30).netw]) :=
  c1_hosts_amended [10, 0, 0, 0] 30 (by decide) (by decide) (by decide) (by decide)

theorem zipWith_mask_absorb (f : Nat → Nat → Nat) (hf : ∀ a m, f (a &&& m) m = f a m) :
    ∀ (xs ms : List Nat),
      List.zipWith f (List.zipWith (fun a m => a &&& m) xs ms) ms = List.zipWith f xs ms
  | [], _ => by simp
  | _ :: _, [] => by simp
  | x :: xs, m :: ms => by
    simp only [List.zipWith]
    rw [hf, zipWith_mask_absorb f hf xs ms]

/-- C10: subnet enumeration is invariant under masking off the host bits of
the input address: for every valid address and prefix length in `[16,32]`,
running `subnet_calculator` on the canonical network address
(`addr AND netmask`, octet-wise) yields the same netmask, network address,
broadcast address and host sequence as running it on `addr` itself. -/
theorem c10_mask_invariant (addr : List Nat) (p : Nat)
    (_hlen : addr.length = 4) (_hoct : ∀ o ∈ addr, o < 256)
    (_hp1 : 16 ≤ p) (_hp2 : p ≤ 32) :
    subnet_calculator (netwOctets addr p) p = subnet_calculator addr p := by
  have habs : ∀ a m : Nat, (a &&& m) &&& m = a &&& m := fun a m => by
    rw [Nat.and_assoc, Nat.and_self]
  have hn : netwOctets (netwOctets addr p) p = netwOctets addr p :=
    zipWith_mask_absorb _ habs addr (maskOctets p)
  have hbcs : bcasOctets (netwOctets addr p) p = bcasOctets addr p :=
    zipWith_mask_absorb _ (fun a m => by rw [habs]) addr (maskOctets p)
  simp only [subnet_calculator, hn, hbcs]

/-- C10 (witness): the invariance theorem applied to the concrete input
`10.0.0.1/24`, whose host bits are nonzero. -/
theorem c10_mask_invariant_witness :
    subnet_calculator (netwOctets [10, 0, 0, 1] 24) 24 = subnet_calculator [10, 0, 0, 1] 24 :=
  c10_mask_invariant [10, 0, 0, 1] 24 (by decide) (by decide) (by decide) (by decide)

/-! ### Scheduler lemmas -/

theorem runTasks_slot (f : α → β) (xs : List α) :
    ∀ (order : List Nat) (slots : Nat → Option β) (j : Nat),
      runTasks f xs order slots j = if j ∈ order then taskOut f xs j else slots j
  | [], slots, j => by simp [runTasks]
  | i :: rest, slots, j => by
    rw [runTasks, runTasks_slot f xs rest]
    by_cases hj : j ∈ rest
    · simp [hj, List.mem_cons]
    · by_cases hji : j = i
      · subst hji
        simp [hj]
      · simp [hj, hji, List.mem_cons]

theorem collectFrom_map_succ (slots : Nat → Option β) :
    ∀ r : List Nat,
      collectFrom slots (r.map Nat.succ) = collectFrom (fun i => slots (i + 1)) r
  | [] => rfl
  | i :: r => by
    simp only [List.map_cons, collectFrom, collectFrom_map_succ slots r, Nat.succ_eq_add_one]

theorem collect_slots_eq (f : α → β) :
    ∀ (xs : List α) (slots : Nat → Option β),
      (∀ i, i < xs.length → slots i = taskOut f xs i) →
      collectFrom slots (List.range xs.length) = some (xs.map f)
  | [], _, _ => rfl
  | x :: xs, slots, hs => by
    have h0 : slots 0 = some (f x) := by simpa [taskOut] using hs 0 (by simp)
    have hrec : ∀ i, i < xs.length → (fun i => slots (i + 1)) i = taskOut f xs i := by
      intro i hi
      simpa [taskOut] using hs (i + 1) (by simpa using Nat.succ_lt_succ hi)
    rw [List.length_cons, List.range_succ_eq_map, collectFrom, h0,
      collectFrom_map_succ, collect_slots_eq f xs _ hrec]
    simp

theorem poolMap_complete (tp : ThreadPool) (f : α → β) (xs : List α) (order : List Nat)
    (hcov : ∀ i, i < xs.length → i ∈ order) :
    poolMap tp f xs order = some (xs.map f) := by
  unfold poolMap
  apply collect_slots_eq
  intro i hi
  rw [runTasks_slot]
  simp [hcov i hi]

/-! ### Parsing lemmas for well-formed ping transcripts -/

theorem splitGo_no_sep (c : Char) :
    ∀ (s : PyStr) (fuel : Nat) (acc : PyStr), s.length ≤ fuel → c ∉ s →
      splitGo [c] fuel acc s = [acc.reverse ++ s]
  | [], fuel, acc, _, _ => by cases fuel <;> simp [splitGo]
  | c' :: cs, 0, acc, hf, _ => by simp at hf
  | c' :: cs, fuel + 1, acc, hf, h => by
    have hne : c ≠ c' := fun he => h (by simp [he])
    have hcc : ([c].isPrefixOf (c' :: cs)) = false := by
      simp [List.isPrefixOf, hne]
    rw [splitGo, hcc]
    rw [if_neg (by simp)]
    rw [splitGo_no_sep c cs fuel (c' :: acc)
      (by simpa using Nat.le_of_succ_le_succ hf)
      fun hm => h (List.mem_cons_of_mem c' hm)]
    simp

theorem splitOnSep_no_sep (c : Char) (s : PyStr) (h : c ∉ s) :
    splitOnSep [c] s = [s] := by
  rw [splitOnSep, splitGo_no_sep c s s.length [] (Nat.le_refl _) h]
  simp

theorem isPrefixOf_append_self : ∀ (l r : PyStr), l.isPrefixOf (l ++ r) = true
  | [], _ => by simp [List.isPrefixOf]
  | c :: l, r => by simp [List.isPrefixOf, isPrefixOf_append_self l r]

theorem findLazy_exact (p : Char) (ps : PyStr) (rest : PyStr) :
    ∀ g : PyStr, p ∉ g →
      findLazy (p :: ps) (g ++ ((p :: ps) ++ rest)) = some g
  | [], _ => by
    have hpre := isPrefixOf_append_self (p :: ps) rest
    rw [List.cons_append] at hpre
    rw [List.nil_append, List.cons_append, findLazy, if_pos hpre]
  | c :: g, h => by
    have hne : p ≠ c := fun he => h (by simp [he])
    rw [List.cons_append, findLazy, if_neg (by simp [List.isPrefixOf, hne]),
      findLazy_exact p ps rest g fun hm => h (List.mem_cons_of_mem c hm)]
    rfl

theorem matchStats_head_P (s : PyStr) : matchStats ('P' :: s) = none := by
  simp [matchStats, dropLit, List.isPrefixOf]

theorem matchTime_head_P (s : PyStr) : matchTime ('P' :: s) = none := by
  simp [matchTime, dropLit, List.isPrefixOf]

/-- Header line printed by the Windows `ping` utility for a host. -/
theorem ping_ip_of_wellformed (w : World) (ns h : PyStr)
    (hsp : (' ' : Char) ∉ h) (hnl : ('\n' : Char) ∉ h)
    (hout : w.run (pingCommand h) = pingTag ++ h ++ pingPat ++ [':']) :
    (ping w ns h).ip = some h := by
  have hnlt : ('\n' : Char) ∉ pingTag ++ h ++ pingPat ++ [':'] := by
    have h1 : ('\n' : Char) ∉ pingTag := by decide
    have h2 : ('\n' : Char) ∉ pingPat := by decide
    have h3 : ('\n' : Char) ∉ ([':'] : PyStr) := by decide
    simp only [List.mem_append, not_or]
    exact ⟨⟨⟨h1, hnl⟩, h2⟩, h3⟩
  have hsplit : splitOnSep ['\n'] (pingTag ++ h ++ pingPat ++ [':'])
      = [pingTag ++ h ++ pingPat ++ [':']] := splitOnSep_no_sep _ _ hnlt
  have hip : matchPingIp (pingTag ++ h ++ pingPat ++ [':']) = some h := by
    have hpre : pingTag.isPrefixOf (pingTag ++ h ++ pingPat ++ [':']) = true := by
      simp only [List.append_assoc]
      exact isPrefixOf_append_self pingTag (h ++ (pingPat ++ [':']))
    rw [matchPingIp, if_pos hpre]
    have hdrop : (pingTag ++ h ++ pingPat ++ [':']).drop pingTag.length
        = h ++ (pingPat ++ [':']) := by
      simp only [List.append_assoc]
      exact List.drop_left pingTag (h ++ (pingPat ++ [':']))
    rw [hdrop]
    have hpp : pingPat = ' ' :: "with 32 bytes of data".toList := rfl
    rw [hpp]
    exact findLazy_exact ' ' _ _ h hsp
  have hstats : matchStats (pingTag ++ h ++ pingPat ++ [':']) = none := by
    show matchStats ('P' :: ("inging ".toList ++ h ++ pingPat ++ [':'])) = none
    exact matchStats_head_P _
  have htime : matchTime (pingTag ++ h ++ pingPat ++ [':']) = none := by
    show matchTime ('P' :: ("inging ".toList ++ h ++ pingPat ++ [':'])) = none
    exact matchTime_head_P _
  show (pingResultInit (w.run (pingCommand h))).ip = some h
  rw [hout]
  simp only [pingResultInit, hsplit, List.foldl_cons, List.foldl_nil,
    pingLineStep, hip, hstats, htime]

/-- C2: for every sweep over a host list, and every completion order in
which every task eventually reports, the scheduler's result sequence has
exactly one record per input host, and the record at index `i` is the
worker's record for the input host at index `i` — which carries that
host's address whenever the ping utility's transcript opens with the
standard `Pinging <host> with 32 bytes of data:` header. -/
theorem c2_order_preserved (w : World) (ns : PyStr) (hosts : List PyStr)
    (order : List Nat) (tp : ThreadPool)
    (hcov : ∀ i, i < hosts.length → i ∈ order)
    (hwf : ∀ h ∈ hosts, (' ' : Char) ∉ h ∧ ('\n' : Char) ∉ h ∧
      w.run (pingCommand h) = pingTag ++ h ++ pingPat ++ [':']) :
    ∃ res, poolMap tp (ping w ns) hosts order = some res ∧
      res.length = hosts.length ∧
      (∀ i, i < hosts.length → res.get? i = (hosts.get? i).map (ping w ns)) ∧
      (∀ hst ∈ hosts, (ping w ns hst).ip = some hst) := by
  refine ⟨hosts.map (ping w ns), poolMap_complete tp _ hosts order hcov, by simp, ?_, ?_⟩
  · intro i _
    simp [List.get?_eq_getElem?, List.getElem?_map]
  · intro hst hmem
    obtain ⟨h1, h2, h3⟩ := hwf hst hmem
    exact ping_ip_of_wellformed w ns hst h1 h2 h3

/-- C2 (witness): a two-host sweep with the completion order reversed
(the second task finishes first) still yields the records in input order. -/
theorem c2_order_preserved_witness :
    ∃ res, poolMap (ThreadPool.mk 256)
        (ping { run := fun cmd => pingTag ++ (cmd.drop 5) ++ pingPat ++ [':'] } "".toList)
        ["10.0.0.1".toList, "10.0.0.2".toList] [1, 0] = some res ∧
      res.length = (["10.0.0.1".toList, "10.0.0.2".toList] : List PyStr).length ∧
      (∀ i, i < (["10.0.0.1".toList, "10.0.0.2".toList] : List PyStr).length →
        res.get? i = ((["10.0.0.1".toList, "10.0.0.2".toList] : List PyStr).get? i).map
          (ping { run := fun cmd => pingTag ++ (cmd.drop 5) ++ pingPat ++ [':'] } "".toList)) ∧
      (∀ hst ∈ (["10.0.0.1".toList, "10.0.0.2".toList] : List PyStr),
        (ping { run := fun cmd => pingTag ++ (cmd.drop 5) ++ pingPat ++ [':'] } "".toList hst).ip
          = some hst) :=
  c2_order_preserved _ _ _ _ _ (by decide) (by decide)

/-! ### Parser extraction lemmas for the probe regexes -/

theorem dropLit_exact (lit x : PyStr) : dropLit lit (lit ++ x) = some x := by
  simp [dropLit, isPrefixOf_append_self, List.drop_left]

theorem takeWhile_all (p : Char → Bool) :
    ∀ (s y : PyStr), (∀ c ∈ s, p c = true) → (s ++ y).takeWhile p = s ++ y.takeWhile p
  | [], y, _ => by simp
  | c :: s, y, h => by
    simp [List.takeWhile_cons, h c (by simp),
      takeWhile_all p s y fun c hc => h c (by simp [hc])]

theorem dropWhile_all (p : Char → Bool) :
    ∀ (s y : PyStr), (∀ c ∈ s, p c = true) → (s ++ y).dropWhile p = y.dropWhile p
  | [], y, _ => by simp
  | c :: s, y, h => by
    simp [List.dropWhile_cons, h c (by simp),
      dropWhile_all p s y fun c hc => h c (by simp [hc])]

theorem takeDigitRun_run (s : PyStr) (hne : s ≠ []) (hdig : ∀ c ∈ s, c.isDigit = true)
    (c : Char) (hc : c.isDigit = false) (x : PyStr) :
    takeDigitRun (s ++ c :: x) = some (s, c :: x) := by
  unfold takeDigitRun
  rw [takeWhile_all _ s (c :: x) hdig, dropWhile_all _ s (c :: x) hdig]
  simp [List.takeWhile_cons, List.dropWhile_cons, hc, hne]

theorem litRecv (X : PyStr) :
    (", Received = ".toList : PyStr) ++ X = ',' :: (" Received = ".toList ++ X) := rfl

theorem litLost (X : PyStr) :
    (", Lost = ".toList : PyStr) ++ X = ',' :: (" Lost = ".toList ++ X) := rfl

theorem litParen (X : PyStr) :
    (" (".toList : PyStr) ++ X = ' ' :: ("(".toList ++ X) := rfl

theorem litLoss (X : PyStr) :
    ("% loss),".toList : PyStr) ++ X = '%' :: (" loss),".toList ++ X) := rfl

theorem litMsMax (X : PyStr) :
    ("ms, Maximum = ".toList : PyStr) ++ X = 'm' :: ("s, Maximum = ".toList ++ X) := rfl

theorem litMsAvg (X : PyStr) :
    ("ms, Average = ".toList : PyStr) ++ X = 'm' :: ("s, Average = ".toList ++ X) := rfl

theorem litMs (X : PyStr) :
    ("ms".toList : PyStr) ++ X = 'm' :: ("s".toList ++ X) := rfl

theorem dropLitRecv (X : PyStr) :
    dropLit ", Received = ".toList (',' :: (" Received = ".toList ++ X)) = some X :=
  dropLit_exact ", Received = ".toList X

theorem dropLitLost (X : PyStr) :
    dropLit ", Lost = ".toList (',' :: (" Lost = ".toList ++ X)) = some X :=
  dropLit_exact ", Lost = ".toList X

theorem dropLitParen (X : PyStr) :
    dropLit " (".toList (' ' :: ("(".toList ++ X)) = some X :=
  dropLit_exact " (".toList X

theorem dropLitLoss (X : PyStr) :
    dropLit "% loss),".toList ('%' :: (" loss),".toList ++ X)) = some X :=
  dropLit_exact "% loss),".toList X

theorem dropLitMsMax (X : PyStr) :
    dropLit "ms, Maximum = ".toList ('m' :: ("s, Maximum = ".toList ++ X)) = some X :=
  dropLit_exact "ms, Maximum = ".toList X

theorem dropLitMsAvg (X : PyStr) :
    dropLit "ms, Average = ".toList ('m' :: ("s, Average = ".toList ++ X)) = some X :=
  dropLit_exact "ms, Average = ".toList X

theorem dropLitMs (X : PyStr) :
    dropLit "ms".toList ('m' :: ("s".toList ++ X)) = some X :=
  dropLit_exact "ms".toList X

theorem matchStats_exact (s r l pct rest : PyStr)
    (hs : s ≠ []) (hsd : ∀ c ∈ s, c.isDigit = true)
    (hr : r ≠ []) (hrd : ∀ c ∈ r, c.isDigit = true)
    (hl : l ≠ []) (hld : ∀ c ∈ l, c.isDigit = true)
    (hp : pct ≠ []) (hpd : ∀ c ∈ pct, c.isDigit = true) :
    matchStats (mkStatsLine s r l pct rest) = some (s, r, l, pct) := by
  have t1 := takeDigitRun_run s hs hsd ',' (by decide)
  have t2 := takeDigitRun_run r hr hrd ',' (by decide)
  have t3 := takeDigitRun_run l hl hld ' ' (by decide)
  have t4 := takeDigitRun_run pct hp hpd '%' (by decide)
  simp only [mkStatsLine, List.append_assoc, List.cons_append, matchStats, dropLit_exact,
    litRecv, litLost, litParen, litLoss, t1, t2, t3, t4,
    dropLitRecv, dropLitLost, dropLitParen, dropLitLoss]

theorem matchTime_exact (mn mx av rest : PyStr)
    (h1 : mn ≠ []) (h1d : ∀ c ∈ mn, c.isDigit = true)
    (h2 : mx ≠ []) (h2d : ∀ c ∈ mx, c.isDigit = true)
    (h3 : av ≠ []) (h3d : ∀ c ∈ av, c.isDigit = true) :
    matchTime (mkTimeLine mn mx av rest) = some (mn, mx, av) := by
  have t1 := takeDigitRun_run mn h1 h1d 'm' (by decide)
  have t2 := takeDigitRun_run mx h2 h2d 'm' (by decide)
  have t3 := takeDigitRun_run av h3 h3d 'm' (by decide)
  simp only [mkTimeLine, List.append_assoc, List.cons_append, matchTime, dropLit_exact,
    litMsMax, litMsAvg, litMs, t1, t2, t3, dropLitMsMax, dropLitMsAvg, dropLitMs]

/-- C3 (counterexample): the probe result is not an ordered sequence of
per-attempt results.  Two transcripts whose four per-attempt latencies
differ (1,2,3,4 versus 2,1,4,3) parse to identical values in every field
the `PingResult` regexes extract (ip, sent, received, lost, loss percent,
min/max/avg trip times) — the parsed probe outcome records only
aggregates.  Moreover the attempt count is not configurable: the worker
runs plain `ping <host>`, and an `--attempts=` option is silently ignored
by the option loop, leaving the default configuration. -/
theorem c3_cex :
    (pingResultInit ("Pinging 10.0.0.1 with 32 bytes of data:\nReply from 10.0.0.1: bytes=32 time=1ms TTL=64\nReply from 10.0.0.1: bytes=32 time=2ms TTL=64\nReply from 10.0.0.1: bytes=32 time=3ms TTL=64\nReply from 10.0.0.1: bytes=32 time=4ms TTL=64\n\nPing statistics for 10.0.0.1:\n    Packets: Sent = 4, Received = 4, Lost = 0 (0% loss),\nApproximate round trip times in milli-seconds:\n    Minimum = 1ms, Maximum = 4ms, Average = 2ms\n").toList).ip
      = (pingResultInit ("Pinging 10.0.0.1 with 32 bytes of data:\nReply from 10.0.0.1: bytes=32 time=2ms TTL=64\nReply from 10.0.0.1: bytes=32 time=1ms TTL=64\nReply from 10.0.0.1: bytes=32 time=4ms TTL=64\nReply from 10.0.0.1: bytes=32 time=3ms TTL=64\n\nPing statistics for 10.0.0.1:\n    Packets: Sent = 4, Received = 4, Lost = 0 (0% loss),\nApproximate round trip times in milli-seconds:\n    Minimum = 1ms, Maximum = 4ms, Average = 2ms\n").toList).ip ∧
    (pingResultInit ("Pinging 10.0.0.1 with 32 bytes of data:\nReply from 10.0.0.1: bytes=32 time=1ms TTL=64\nReply from 10.0.0.1: bytes=32 time=2ms TTL=64\nReply from 10.0.0.1: bytes=32 time=3ms TTL=64\nReply from 10.0.0.1: bytes=32 time=4ms TTL=64\n\nPing statistics for 10.0.0.1:\n    Packets: Sent = 4, Received = 4, Lost = 0 (0% loss),\nApproximate round trip times in milli-seconds:\n    Minimum = 1ms, Maximum = 4ms, Average = 2ms\n").toList).sent
      = (pingResultInit ("Pinging 10.0.0.1 with 32 bytes of data:\nReply from 10.0.0.1: bytes=32 time=2ms TTL=64\nReply from 10.0.0.1: bytes=32 time=1ms TTL=64\nReply from 10.0.0.1: bytes=32 time=4ms TTL=64\nReply from 10.0.0.1: bytes=32 time=3ms TTL=64\n\nPing statistics for 10.0.0.1:\n    Packets: Sent = 4, Received = 4, Lost = 0 (0% loss),\nApproximate round trip times in milli-seconds:\n    Minimum = 1ms, Maximum = 4ms, Average = 2ms\n").toList).sent ∧
    (pingResultInit ("Pinging 10.0.0.1 with 32 bytes of data:\nReply from 10.0.0.1: bytes=32 time=1ms TTL=64\nReply from 10.0.0.1: bytes=32 time=2ms TTL=64\nReply from 10.0.0.1: bytes=32 time=3ms TTL=64\nReply from 10.0.0.1: bytes=32 time=4ms TTL=64\n\nPing statistics for 10.0.0.1:\n    Packets: Sent = 4, Received = 4, Lost = 0 (0% loss),\nApproximate round trip times in milli-seconds:\n    Minimum = 1ms, Maximum = 4ms, Average = 2ms\n").toList).received
      = (pingResultInit ("Pinging 10.0.0.1 with 32 bytes of data:\nReply from 10.0.0.1: bytes=32 time=2ms TTL=64\nReply from 10.0.0.1: bytes=32 time=1ms TTL=64\nReply from 10.0.0.1: bytes=32 time=4ms TTL=64\nReply from 10.0.0.1: bytes=32 time=3ms TTL=64\n\nPing statistics for 10.0.0.1:\n    Packets: Sent = 4, Received = 4, Lost = 0 (0% loss),\nApproximate round trip times in milli-seconds:\n    Minimum = 1ms, Maximum = 4ms, Average = 2ms\n").toList).received ∧
    (pingResultInit ("Pinging 10.0.0.1 with 32 bytes of data:\nReply from 10.0.0.1: bytes=32 time=1ms TTL=64\nReply from 10.0.0.1: bytes=32 time=2ms TTL=64\nReply from 10.0.0.1: bytes=32 time=3ms TTL=64\nReply from 10.0.0.1: bytes=32 time=4ms TTL=64\n\nPing statistics for 10.0.0.1:\n    Packets: Sent = 4, Received = 4, Lost = 0 (0% loss),\nApproximate round trip times in milli-seconds:\n    Minimum = 1ms, Maximum = 4ms, Average = 2ms\n").toList).trip_time
      = (pingResultInit ("Pinging 10.0.0.1 with 32 bytes of data:\nReply from 10.0.0.1: bytes=32 time=2ms TTL=64\nReply from 10.0.0.1: bytes=32 time=1ms TTL=64\nReply from 10.0.0.1: bytes=32 time=4ms TTL=64\nReply from 10.0.0.1: bytes=32 time=3ms TTL=64\n\nPing statistics for 10.0.0.1:\n    Packets: Sent = 4, Received = 4, Lost = 0 (0% loss),\nApproximate round trip times in milli-seconds:\n    Minimum = 1ms, Maximum = 4ms, Average = 2ms\n").toList).trip_time ∧
    ("Reply from 10.0.0.1: bytes=32 time=1ms TTL=64" : String) ≠ "Reply from 10.0.0.1: bytes=32 time=2ms TTL=64" ∧
    pingCommand "10.0.0.1".toList = "ping 10.0.0.1".toList ∧
    parseOptions ["--attempts=9".toList] = .ok defaultConfig := by
  refine ⟨by decide, by decide, by decide, by decide, by decide, by decide, by rfl⟩

/-- C3 (amended): for every host, the probe result is the parse of the
external ping utility's transcript: from a standard statistics line the
parser extracts exactly the aggregate sent/received/lost counters and the
loss percentage, and from a standard round-trip-times line the min/max/avg
latencies (whole milliseconds, as printed by the utility); the attempt
count is the utility's default rather than configured per run; a transcript
in which every attempt times out still parses to a complete record (with
the counters recording the loss and no trip-time summary), and the sweep
emits one record per host no matter what the transcripts contain. -/
theorem c3_probe_amended
    (s r l pct rest mn mx av rest2 : PyStr)
    (hs : s ≠ []) (hsd : ∀ c ∈ s, c.isDigit = true)
    (hr : r ≠ []) (hrd : ∀ c ∈ r, c.isDigit = true)
    (hl : l ≠ []) (hld : ∀ c ∈ l, c.isDigit = true)
    (hp : pct ≠ []) (hpd : ∀ c ∈ pct, c.isDigit = true)
    (h1 : mn ≠ []) (h1d : ∀ c ∈ mn, c.isDigit = true)
    (h2 : mx ≠ []) (h2d : ∀ c ∈ mx, c.isDigit = true)
    (h3 : av ≠ []) (h3d : ∀ c ∈ av, c.isDigit = true)
    (w : World) (ns : PyStr) (ips : List Nat) (tp : ThreadPool) :
    matchStats (mkStatsLine s r l pct rest) = some (s, r, l, pct) ∧
    matchTime (mkTimeLine mn mx av rest2) = some (mn, mx, av) ∧
    pingResultInit timeoutTranscript =
      { ping_result := timeoutTranscript, ip := some "10.0.0.7".toList,
        sent := some "4".toList, received := some "0".toList, lost := some "4".toList,
        lost_percent := some "100".toList, trip_time := none } ∧
    (tpMap tp (fun ipn => ping w ns (ipToPyStr ipn)) ips).length = ips.length :=
  ⟨matchStats_exact s r l pct rest hs hsd hr hrd hl hld hp hpd,
   matchTime_exact mn mx av rest2 h1 h1d h2 h2d h3 h3d,
   by decide,
   by simp [tpMap]⟩

/-- C3 (witness): the amended theorem at the concrete statistics line for
4 sent / 3 received / 1 lost (25% loss) and times 1/4/2 ms. -/
theorem c3_probe_amended_witness :
    matchStats (mkStatsLine "4".toList "3".toList "1".toList "25".toList []) =
      some ("4".toList, "3".toList, "1".toList, "25".toList) ∧
    matchTime (mkTimeLine "1".toList "4".toList "2".toList []) =
      some ("1".toList, "4".toList, "2".toList) ∧
    pingResultInit timeoutTranscript =
      { ping_result := timeoutTranscript, ip := some "10.0.0.7".toList,
        sent := some "4".toList, received := some "0".toList, lost := some "4".toList,
        lost_percent := some "100".toList, trip_time := none } ∧
    (tpMap (ThreadPool.mk 256)
      (fun ipn => ping { run := fun _ => [] } [] (ipToPyStr ipn)) [167772161]).length
      = ([167772161] : List Nat).length :=
  c3_probe_amended "4".toList "3".toList "1".toList "25".toList [] "1".toList "4".toList
    "2".toList [] (by decide) (by decide) (by decide) (by decide) (by decide) (by decide)
    (by decide) (by decide) (by decide) (by decide) (by decide) (by decide) (by decide)
    (by decide) { run := fun _ => [] } [] [167772161] (ThreadPool.mk 256)

/-! ### Reverse resolver lemmas -/

theorem nsLoop_append_none :
    ∀ (pre rest : List PyStr), (∀ x ∈ pre, matchName x = none) →
      nsLoop (pre ++ rest) = nsLoop rest
  | [], _, _ => rfl
  | l :: pre, rest, h => by
    simp only [List.cons_append, nsLoop, h l (by simp)]
    exact nsLoop_append_none pre rest fun x hx => h x (by simp [hx])

theorem nsLoop_all_none :
    ∀ ls : List PyStr, (∀ x ∈ ls, matchName x = none) → nsLoop ls = none
  | [], _ => rfl
  | l :: ls, h => by
    simp only [nsLoop, h l (by simp)]
    exact nsLoop_all_none ls fun x hx => h x (by simp [hx])

/-- C4 (counterexample): on a response containing two `Name:` lines the
resolver keeps only the first one — its result, viewed as a sequence, is
`[a.example.com]` and not the full in-order name sequence
`[a.example.com, b.example.com]` that the claim requires. -/
theorem c4_cex :
    (nsLookupInit ("Server:  dns.local\nAddress:  10.0.0.53\n\nName:    a.example.com\nAddress:  10.0.0.1\nName:    b.example.com\nAddress:  10.0.0.2\n").toList).nslookup
      = some "a.example.com".toList ∧
    specResolveAll ("Server:  dns.local\nAddress:  10.0.0.53\n\nName:    a.example.com\nAddress:  10.0.0.1\nName:    b.example.com\nAddress:  10.0.0.2\n").toList
      = ["a.example.com".toList, "b.example.com".toList] ∧
    (nsLookupInit ("Server:  dns.local\nAddress:  10.0.0.53\n\nName:    a.example.com\nAddress:  10.0.0.1\nName:    b.example.com\nAddress:  10.0.0.2\n").toList).nslookup.toList
      ≠ specResolveAll ("Server:  dns.local\nAddress:  10.0.0.53\n\nName:    a.example.com\nAddress:  10.0.0.1\nName:    b.example.com\nAddress:  10.0.0.2\n").toList := by
  refine ⟨by decide, by decide, by decide⟩

/-- C4 (amended): the resolver returns the first resolved name present in
the lookup response (none of the later ones), and on a response with no
matching `Name:` line — any resolution failure — it yields the empty
result `none` without raising. -/
theorem c4_resolver_amended (t : PyStr) (pre post : List PyStr) (line n : PyStr)
    (hsplit : splitOnSep ['\n'] t = pre ++ line :: post)
    (hpre : ∀ x ∈ pre, matchName x = none)
    (hline : matchName line = some n)
    (t2 : PyStr) (hfail : ∀ x ∈ splitOnSep ['\n'] t2, matchName x = none) :
    (nsLookupInit t).nslookup = some n ∧
    (nsLookupInit t2).nslookup = none := by
  refine ⟨?_, nsLoop_all_none _ hfail⟩
  show nsLoop (splitOnSep ['\n'] t) = some n
  rw [hsplit, nsLoop_append_none pre _ hpre]
  simp only [nsLoop, hline]

/-- C4 (witness): the amended theorem at a concrete two-section response
and a concrete failure response. -/
theorem c4_resolver_amended_witness :
    (nsLookupInit ("Server:  dns.local\nName:    a.example.com\ntail").toList).nslookup
      = some "a.example.com".toList ∧
    (nsLookupInit ("server cannot find 1.0.0.10.in-addr.arpa: NXDOMAIN").toList).nslookup
      = none :=
  c4_resolver_amended ("Server:  dns.local\nName:    a.example.com\ntail").toList
    ["Server:  dns.local".toList] ["tail".toList] "Name:    a.example.com".toList
    "a.example.com".toList (by decide) (by decide) (by decide)
    ("server cannot find 1.0.0.10.in-addr.arpa: NXDOMAIN").toList (by decide)

/-! ### Lemmas about the Python int model -/

theorem digitsLoop_none_of_mem (x : Char) (hxd : x.isDigit = false) (hxu : x ≠ '_') :
    ∀ (l : PyStr) (acc : Nat), x ∈ l → digitsLoop acc l = none
  | [c], acc, h => by
    have hxc : x = c := by simpa using h
    have hc : c.isDigit = false := by rw [← hxc]; exact hxd
    show (if c.isDigit = true then digitsLoop (acc * 10 + (c.toNat - 48)) []
      else if c = '_' then none else none) = none
    rw [if_neg (by simp [hc])]
    simp
  | c :: d :: cs', acc, h => by
    show (if c.isDigit = true then digitsLoop (acc * 10 + (c.toNat - 48)) (d :: cs')
      else if c = '_' then
        (if d.isDigit = true then digitsLoop (acc * 10 + (d.toNat - 48)) cs' else none)
      else none) = none
    by_cases hc : c.isDigit = true
    · have hxc : x ≠ c := by
        intro he
        rw [he] at hxd
        rw [hxd] at hc
        exact Bool.false_ne_true hc
      have hxcs : x ∈ d :: cs' := by
        rcases List.mem_cons.mp h with he | hm
        · exact absurd he hxc
        · exact hm
      rw [if_pos hc]
      exact digitsLoop_none_of_mem x hxd hxu (d :: cs') _ hxcs
    · rw [if_neg hc]
      by_cases hcu : c = '_'
      · rw [if_pos hcu]
        by_cases hd : d.isDigit = true
        · have hxdne : x ≠ d := by
            intro he
            rw [he] at hxd
            rw [hxd] at hd
            exact Bool.false_ne_true hd
          have hxc : x ≠ c := by rw [hcu]; exact hxu
          have hx' : x ∈ cs' := by
            rcases List.mem_cons.mp h with he | hm
            · exact absurd he hxc
            · rcases List.mem_cons.mp hm with he | hm'
              · exact absurd he hxdne
              · exact hm'
          rw [if_pos hd]
          exact digitsLoop_none_of_mem x hxd hxu cs' _ hx'
        · rw [if_neg hd]
      · rw [if_neg hcu]

theorem pyNatCore_none_of_mem (x : Char) (hxd : x.isDigit = false) (hxu : x ≠ '_')
    (l : PyStr) (h : x ∈ l) : pyNatCore l = none := by
  cases l with
  | nil => rfl
  | cons c cs =>
    show (if c.isDigit = true then digitsLoop (c.toNat - 48) cs else none) = none
    by_cases hc : c.isDigit = true
    · have hxc : x ≠ c := by
        intro he
        rw [he] at hxd
        rw [hxd] at hc
        exact Bool.false_ne_true hc
      have hxcs : x ∈ cs := by
        rcases List.mem_cons.mp h with he | hm
        · exact absurd he hxc
        · exact hm
      rw [if_pos hc]
      exact digitsLoop_none_of_mem x hxd hxu cs _ hxcs
    · rw [if_neg hc]

theorem mem_dropWhile_of_mem (p : Char → Bool) (x : Char) (hx : p x = false) :
    ∀ l : PyStr, x ∈ l → x ∈ l.dropWhile p
  | c :: cs, h => by
    rw [List.dropWhile_cons]
    by_cases hc : p c = true
    · have hxc : x ≠ c := by
        intro he
        rw [he] at hx
        rw [hx] at hc
        exact Bool.false_ne_true hc
      have hxcs : x ∈ cs := by
        rcases List.mem_cons.mp h with he | hm
        · exact absurd he hxc
        · exact hm
      rw [if_pos hc]
      exact mem_dropWhile_of_mem p x hx cs hxcs
    · rw [if_neg hc]
      exact h

theorem mem_pyStrip (x : Char) (hx : isPySpace x = false) (l : PyStr) (h : x ∈ l) :
    x ∈ pyStrip l := by
  unfold pyStrip
  apply List.mem_reverse.mpr
  apply mem_dropWhile_of_mem _ x hx
  apply List.mem_reverse.mpr
  exact mem_dropWhile_of_mem _ x hx l h

theorem pyInt_none_of_mem (x : Char) (hxd : x.isDigit = false) (hxu : x ≠ '_')
    (hxp : x ≠ '+') (hxm : x ≠ '-') (hxs : isPySpace x = false)
    (l : PyStr) (h : x ∈ l) : pyInt l = none := by
  have hst : x ∈ pyStrip l := mem_pyStrip x hxs l h
  rw [pyInt.eq_def]
  rcases hm : pyStrip l with _ | ⟨c, rest⟩
  · rfl
  · rw [hm] at hst
    show (if c = '+' then (pyNatCore rest).map (fun n => Int.ofNat n)
      else if c = '-' then (pyNatCore rest).map (fun n => -Int.ofNat n)
      else (pyNatCore (c :: rest)).map (fun n => Int.ofNat n)) = none
    by_cases hcp : c = '+'
    · rw [if_pos hcp]
      have hxrest : x ∈ rest := by
        rcases List.mem_cons.mp hst with he | hmm
        · rw [hcp] at he
          exact absurd he hxp
        · exact hmm
      rw [pyNatCore_none_of_mem x hxd hxu rest hxrest]
      rfl
    · rw [if_neg hcp]
      by_cases hcm : c = '-'
      · rw [if_pos hcm]
        have hxrest : x ∈ rest := by
          rcases List.mem_cons.mp hst with he | hmm
          · rw [hcm] at he
            exact absurd he hxm
          · exact hmm
        rw [pyNatCore_none_of_mem x hxd hxu rest hxrest]
        rfl
      · rw [if_neg hcm]
        rw [pyNatCore_none_of_mem x hxd hxu (c :: rest) hst]
        rfl

/-! ### Structure of single-character splits -/

theorem splitGo_ne_nil (sep : PyStr) :
    ∀ (s : PyStr) (fuel : Nat) (acc : PyStr), splitGo sep fuel acc s ≠ []
  | [], fuel, acc => by cases fuel <;> simp [splitGo]
  | c :: cs, 0, acc => by simp [splitGo]
  | c :: cs, fuel + 1, acc => by
    rw [splitGo]
    by_cases hp : sep.isPrefixOf (c :: cs) = true
    · rw [if_pos hp]
      simp
    · rw [if_neg hp]
      exact splitGo_ne_nil sep cs fuel (c :: acc)

theorem splitGo_length_count (c : Char) :
    ∀ (s : PyStr) (fuel : Nat) (acc : PyStr), s.length ≤ fuel →
      (splitGo [c] fuel acc s).length = s.count c + 1
  | [], fuel, acc, _ => by cases fuel <;> simp [splitGo]
  | c' :: cs, 0, _, hf => by simp at hf
  | c' :: cs, fuel + 1, acc, hf => by
    rw [splitGo]
    by_cases hcc : c = c'
    · subst hcc
      rw [if_pos (by simp [List.isPrefixOf])]
      simp only [List.length_cons, List.length_nil, Nat.sub_self, List.drop_zero]
      rw [splitGo_length_count c cs fuel [] (by simpa using Nat.le_of_succ_le_succ hf)]
      simp [List.count_cons]
    · have hpf : ([c].isPrefixOf (c' :: cs)) = false := by simp [List.isPrefixOf, hcc]
      rw [hpf, if_neg (by simp)]
      rw [splitGo_length_count c cs fuel (c' :: acc)
        (by simpa using Nat.le_of_succ_le_succ hf)]
      simp [List.count_cons, Ne.symm hcc]

theorem splitOnSep_length_count (c : Char) (s : PyStr) :
    (splitOnSep [c] s).length = s.count c + 1 :=
  splitGo_length_count c s s.length [] (Nat.le_refl _)

theorem splitGo_single (c : Char) :
    ∀ (s : PyStr) (fuel : Nat) (acc x : PyStr), s.length ≤ fuel →
      splitGo [c] fuel acc s = [x] → acc.reverse ++ s = x
  | [], fuel, acc, x, _, h => by
    cases fuel <;> simp_all [splitGo]
  | c' :: cs, 0, _, _, hf, _ => by simp at hf
  | c' :: cs, fuel + 1, acc, x, hf, h => by
    rw [splitGo] at h
    by_cases hcc : c = c'
    · subst hcc
      rw [if_pos (by simp [List.isPrefixOf])] at h
      simp only [List.length_cons, List.length_nil, Nat.sub_self, List.drop_zero] at h
      have h2 : splitGo [c] fuel [] cs = [] := by
        have := congrArg List.tail h
        simpa using this
      exact absurd h2 (splitGo_ne_nil [c] cs fuel [])
    · have hpf : ([c].isPrefixOf (c' :: cs)) = false := by simp [List.isPrefixOf, hcc]
      rw [hpf, if_neg (by simp)] at h
      have := splitGo_single c cs fuel (c' :: acc) x
        (by simpa using Nat.le_of_succ_le_succ hf) h
      simpa using this

theorem splitGo_pair (c : Char) :
    ∀ (s : PyStr) (fuel : Nat) (acc a b : PyStr), s.length ≤ fuel →
      splitGo [c] fuel acc s = [a, b] → acc.reverse ++ s = a ++ c :: b
  | [], fuel, acc, a, b, _, h => by
    cases fuel <;> simp_all [splitGo]
  | c' :: cs, 0, _, _, _, hf, _ => by simp at hf
  | c' :: cs, fuel + 1, acc, a, b, hf, h => by
    rw [splitGo] at h
    by_cases hcc : c = c'
    · subst hcc
      rw [if_pos (by simp [List.isPrefixOf])] at h
      simp only [List.length_cons, List.length_nil, Nat.sub_self, List.drop_zero] at h
      have h1 : acc.reverse = a := by
        have := congrArg (fun l => List.headD l []) h
        simpa using this
      have h2 : splitGo [c] fuel [] cs = [b] := by
        have := congrArg List.tail h
        simpa using this
      have h3 : cs = b := by
        simpa using splitGo_single c cs fuel [] b
          (by simpa using Nat.le_of_succ_le_succ hf) h2
      rw [h1, h3]
    · have hpf : ([c].isPrefixOf (c' :: cs)) = false := by simp [List.isPrefixOf, hcc]
      rw [hpf, if_neg (by simp)] at h
      have := splitGo_pair c cs fuel (c' :: acc) a b
        (by simpa using Nat.le_of_succ_le_succ hf) h
      simpa using this

theorem splitOnSep_pair (c : Char) (s a b : PyStr) (h : splitOnSep [c] s = [a, b]) :
    s = a ++ c :: b := by
  simpa using splitGo_pair c s s.length [] a b (Nat.le_refl _) h

/-! ### Option-loop and validation lemmas -/

theorem parseOptionsGo_error_msg :
    ∀ (opts : List PyStr) (c : Config) (m : String),
      parseOptionsGo opts c = .error m → m ≠ ""
  | [], c, m, h => by simp [parseOptionsGo] at h
  | o :: os, c, m, h => by
    simp only [parseOptionsGo] at h
    split at h
    · split at h
      · cases h
        decide
      · split at h
        · cases h
          decide
        · exact parseOptionsGo_error_msg os _ m h
    · exact parseOptionsGo_error_msg os _ m h

theorem parseOptionsGo_error_of_badThreads :
    ∀ (opts : List PyStr) (c : Config),
      (∃ o ∈ opts, threadsOptTag.isPrefixOf o = true ∧
        (pyInt ((splitOnSep threadsOptTag o).getD 1 []) = none ∨
          ∃ v, pyInt ((splitOnSep threadsOptTag o).getD 1 []) = some v ∧ (v < 1 ∨ 1024 < v))) →
      ∃ m, parseOptionsGo opts c = .error m
  | [], _, h => absurd h (by simp)
  | o :: os, c, h => by
    simp only [parseOptionsGo]
    split
    · rename_i ht
      split
      · exact ⟨_, rfl⟩
      · rename_i n hpy
        split
        · exact ⟨_, rfl⟩
        · rename_i hr
          apply parseOptionsGo_error_of_badThreads os
          rcases h with ⟨o', ho', hto', hbad⟩
          rcases List.mem_cons.mp ho' with he | hm
          · subst he
            rcases hbad with hnone | ⟨v, hv, hrange⟩
            · rw [hpy] at hnone
              cases hnone
            · rw [hpy] at hv
              cases hv
              exact absurd hrange hr
          · exact ⟨o', hm, hto', hbad⟩
    · rename_i ht
      apply parseOptionsGo_error_of_badThreads os
      rcases h with ⟨o', ho', hto', hbad⟩
      rcases List.mem_cons.mp ho' with he | hm
      · subst he
        exact absurd hto' ht
      · exact ⟨o', hm, hto', hbad⟩

theorem checkOctets_error :
    ∀ parts : List PyStr,
      (∃ o ∈ parts, pyInt o = none ∨ ∃ v, pyInt o = some v ∧ (v < 0 ∨ 255 < v)) →
      ∃ m, checkOctets parts = some m ∧ m ≠ ""
  | [], h => absurd h (by simp)
  | o :: os, h => by
    simp only [checkOctets]
    split
    · exact ⟨_, rfl, by decide⟩
    · rename_i v hpy
      split
      · exact ⟨_, rfl, by decide⟩
      · rename_i hr
        apply checkOctets_error os
        rcases h with ⟨o', ho', hbad⟩
        rcases List.mem_cons.mp ho' with he | hm
        · subst he
          rcases hbad with hnone | ⟨v', hv', hrange⟩
          · rw [hpy] at hnone
            cases hnone
          · rw [hpy] at hv'
            cases hv'
            exact absurd hrange hr
        · exact ⟨o', hm, hbad⟩

theorem parseOptionsGo_threads_bound :
    ∀ (opts : List PyStr) (c cfg : Config),
      1 ≤ c.n_threads → c.n_threads ≤ 1024 →
      parseOptionsGo opts c = .ok cfg → 1 ≤ cfg.n_threads ∧ cfg.n_threads ≤ 1024
  | [], c, cfg, h1, h2, h => by
    simp only [parseOptionsGo] at h
    cases h
    exact ⟨h1, h2⟩
  | o :: os, c, cfg, h1, h2, h => by
    simp only [parseOptionsGo] at h
    split at h
    · split at h
      · cases h
      · split at h
        · cases h
        · rename_i n hn hrange
          refine parseOptionsGo_threads_bound os _ cfg ?_ ?_ h <;>
            split <;> simp <;> omega
    · refine parseOptionsGo_threads_bound os _ cfg ?_ ?_ h <;>
        split <;> simp [h1, h2] <;> split <;> simp [h1, h2]

theorem mainValidate_error (sIn : PyStr) (opts : List PyStr)
    (hbad :
      ((splitOnSep ['/'] sIn).length = 2 ∧
        (pyInt ((splitOnSep ['/'] sIn).getD 1 []) = none ∨
          ∃ v, pyInt ((splitOnSep ['/'] sIn).getD 1 []) = some v ∧ (v < 16 ∨ 32 < v))) ∨
      (splitOnSep ['/'] sIn).length ≠ 2 ∨
      ((splitOnSep ['/'] sIn).length = 2 ∧
        ((splitOnSep ['.'] ((splitOnSep ['/'] sIn).getD 0 [])).length ≠ 4 ∨
          ∃ o ∈ splitOnSep ['.'] ((splitOnSep ['/'] sIn).getD 0 []),
            pyInt o = none ∨ ∃ v, pyInt o = some v ∧ (v < 0 ∨ 255 < v))) ∨
      (∃ o ∈ opts, threadsOptTag.isPrefixOf o = true ∧
        (pyInt ((splitOnSep threadsOptTag o).getD 1 []) = none ∨
          ∃ v, pyInt ((splitOnSep threadsOptTag o).getD 1 []) = some v ∧ (v < 1 ∨ 1024 < v)))) :
    ∃ m, mainValidate sIn opts = .error m ∧ m ≠ "" := by
  rcases hpo : parseOptions opts with m | cfg
  · exact ⟨m, by simp [mainValidate, hpo], parseOptionsGo_error_msg opts defaultConfig m hpo⟩
  · have hnoD : ¬ (∃ o ∈ opts, threadsOptTag.isPrefixOf o = true ∧
        (pyInt ((splitOnSep threadsOptTag o).getD 1 []) = none ∨
          ∃ v, pyInt ((splitOnSep threadsOptTag o).getD 1 []) = some v ∧ (v < 1 ∨ 1024 < v))) := by
      intro hD
      obtain ⟨m', hm'⟩ := parseOptionsGo_error_of_badThreads opts defaultConfig hD
      rw [show parseOptionsGo opts defaultConfig = parseOptions opts from rfl, hpo] at hm'
      cases hm'
    simp only [mainValidate, hpo]
    by_cases h2 : (splitOnSep ['/'] sIn).length = 2
    · rw [if_neg (by simpa using h2)]
      by_cases h4 : (splitOnSep ['.'] sIn).length = 4
      · rw [if_neg (by simpa using h4)]
        obtain ⟨a, b, hab⟩ := List.length_eq_two.mp h2
        simp only [hab, List.getD_cons_succ, List.getD_cons_zero] at hbad ⊢
        split
        · exact ⟨_, rfl, by decide⟩
        · rename_i v hpy
          split
          · exact ⟨_, rfl, by decide⟩
          · rename_i hlt
            split
            · exact ⟨_, rfl, by decide⟩
            · rename_i hgt
              have hdotb : ('.' : Char) ∉ b := by
                intro hdot
                rw [pyInt_none_of_mem '.' (by decide) (by decide) (by decide) (by decide)
                  (by decide) b hdot] at hpy
                cases hpy
              have hsab : sIn = a ++ '/' :: b := splitOnSep_pair '/' sIn a b hab
              have hcount : sIn.count '.' = 3 := by
                have := splitOnSep_length_count '.' sIn
                rw [h4] at this
                omega
              have hcounta : a.count '.' = 3 := by
                rw [hsab, List.count_append, List.count_cons] at hcount
                have hb0 : b.count '.' = 0 := List.count_eq_zero.mpr hdotb
                simp [hb0] at hcount
                omega
              have ha4 : (splitOnSep ['.'] a).length = 4 := by
                rw [splitOnSep_length_count '.' a, hcounta]
              rcases hbad with ⟨_, hA⟩ | hB | ⟨_, hC⟩ | hD
              · rcases hA with hnone | ⟨v', hv', hrange⟩
                · rw [hpy] at hnone
                  cases hnone
                · rw [hpy] at hv'
                  cases hv'
                  rcases hrange with hx | hx
                  · exact absurd hx hlt
                  · exact absurd hx hgt
              · exact absurd rfl hB
              · rcases hC with hne4 | hbadOct
                · exact absurd ha4 hne4
                · obtain ⟨m, hco, hne⟩ := checkOctets_error _ hbadOct
                  rw [hco]
                  exact ⟨m, rfl, hne⟩
              · exact absurd hD hnoD
      · exact ⟨_, by rw [if_pos h4], by decide⟩
    · exact ⟨_, by rw [if_pos h2], by decide⟩

/-- C5: for every input whose subnet prefix is non-numeric or outside
`[16,32]`, whose address part does not have exactly four octets, whose
octets are non-numeric or outside `[0,255]`, whose input lacks a single
`/`-separated subnet part, or whose `--threads=` option is invalid, the
run terminates with a nonempty validation message — the `invalid` outcome,
which precedes the confirmation prompt, the sweep and every network call —
and performs no sweep. -/
theorem c5_invalid_rejected (sIn : PyStr) (opts : List PyStr) (ev : Events) (w : World)
    (hbad :
      ((splitOnSep ['/'] sIn).length = 2 ∧
        (pyInt ((splitOnSep ['/'] sIn).getD 1 []) = none ∨
          ∃ v, pyInt ((splitOnSep ['/'] sIn).getD 1 []) = some v ∧ (v < 16 ∨ 32 < v))) ∨
      (splitOnSep ['/'] sIn).length ≠ 2 ∨
      ((splitOnSep ['/'] sIn).length = 2 ∧
        ((splitOnSep ['.'] ((splitOnSep ['/'] sIn).getD 0 [])).length ≠ 4 ∨
          ∃ o ∈ splitOnSep ['.'] ((splitOnSep ['/'] sIn).getD 0 []),
            pyInt o = none ∨ ∃ v, pyInt o = some v ∧ (v < 0 ∨ 255 < v))) ∨
      (∃ o ∈ opts, threadsOptTag.isPrefixOf o = true ∧
        (pyInt ((splitOnSep threadsOptTag o).getD 1 []) = none ∨
          ∃ v, pyInt ((splitOnSep threadsOptTag o).getD 1 []) = some v ∧ (v < 1 ∨ 1024 < v)))) :
    ∃ msg, mainRun sIn opts ev w = .invalid msg ∧ msg ≠ "" := by
  obtain ⟨m, hm, hne⟩ := mainValidate_error sIn opts hbad
  exact ⟨m, by simp [mainRun, hm], hne⟩

/-- C5 (witness): the claim theorem applied to the too-broad subnet
`10.0.0.0/15`. -/
theorem c5_invalid_rejected_witness :
    ∃ msg, mainRun "10.0.0.0/15".toList [] ⟨false, false, .ok⟩ { run := fun _ => [] }
      = .invalid msg ∧ msg ≠ "" :=
  c5_invalid_rejected "10.0.0.0/15".toList [] ⟨false, false, .ok⟩ { run := fun _ => [] }
    (Or.inl ⟨by decide, Or.inr ⟨15, by decide, by decide⟩⟩)

/-- C6 (counterexample): the effective worker count is not clamped to the
host count: a default run over `10.0.0.0/30` has two hosts, yet the thread
pool is created with the configured 256 threads, not
`min(configured_threads, len(hosts)) = 2`. -/
theorem c6_cex :
    (subnet_calculator [10, 0, 0, 0] 30).hosts = some [167772161, 167772162] ∧
    (ThreadPool.mk defaultConfig.n_threads).processes = 256 ∧
    specWorkerCount defaultConfig [167772161, 167772162] = 2 ∧
    (ThreadPool.mk defaultConfig.n_threads).processes
      ≠ specWorkerCount defaultConfig [167772161, 167772162] :=
  ⟨by decide, by decide, by decide, by decide⟩

/-- C6 (amended): the pool is created with exactly the configured thread
count, never clamped to the host count; every configuration that survives
the option loop has a thread count in `[1,1024]`, and a zero (or negative,
or out-of-range, or non-numeric) `--threads=` value is rejected upfront,
before any dispatch. -/
theorem c6_workers_amended (opts : List PyStr) (cfg : Config)
    (hok : parseOptions opts = .ok cfg) :
    1 ≤ cfg.n_threads ∧ cfg.n_threads ≤ 1024 ∧
    (ThreadPool.mk cfg.n_threads).processes = cfg.n_threads ∧
    parseOptions ["--threads=0".toList] = .error "nthreads must be in the range [1-1024]" := by
  have hb := parseOptionsGo_threads_bound opts defaultConfig cfg (by decide) (by decide) hok
  exact ⟨hb.1, hb.2, rfl, by rfl⟩

/-- C6 (witness): the amended theorem at the default (empty) option list. -/
theorem c6_workers_amended_witness :
    1 ≤ defaultConfig.n_threads ∧ defaultConfig.n_threads ≤ 1024 ∧
    (ThreadPool.mk defaultConfig.n_threads).processes = defaultConfig.n_threads ∧
    parseOptions ["--threads=0".toList] = .error "nthreads must be in the range [1-1024]" :=
  c6_workers_amended [] defaultConfig rfl

/-! ### Main-flow lemmas -/

theorem csvPhase_completed (cfg : Config) (records : List Record) (wr : WriteOutcome)
    (recs : List Record) (csv : CsvOutcome)
    (h : csvPhase cfg records wr = .completed recs csv) : recs = records := by
  unfold csvPhase at h
  split at h
  · split at h <;> cases h <;> rfl
  · cases h
    rfl

theorem sweepPhase_completed (cfg : Config) (ev : Events) (w : World) (ips : List Nat)
    (recs : List Record) (csv : CsvOutcome)
    (h : sweepPhase cfg ev w ips = .completed recs csv) : recs.length = ips.length := by
  unfold sweepPhase at h
  split at h
  · cases h
  · rw [csvPhase_completed _ _ _ _ _ h]
    simp [tpMap]

theorem mainRun_noComplete_of_interrupt (sIn : PyStr) (opts : List PyStr) (w : World)
    (ev : Events) (hsi : ev.sweepInterrupt = true) (recs : List Record) (csv : CsvOutcome) :
    mainRun sIn opts ev w ≠ .completed recs csv := by
  intro h
  simp only [mainRun] at h
  rcases hval : mainValidate sIn opts with m | cfg
  · simp only [hval] at h
    cases h
  · simp only [hval] at h
    rcases hsub : subnetCalcStr sIn with _ | info
    · simp only [hsub] at h
      cases h
    · simp only [hsub] at h
      rcases hh : info.hosts with _ | ips
      · simp only [hh] at h
        cases h
      · simp only [hh] at h
        have hsw : ∀ ips' : List Nat, sweepPhase cfg ev w ips' ≠ .completed recs csv := by
          intro ips' hs
          unfold sweepPhase at hs
          rw [if_pos hsi] at hs
          cases hs
        by_cases hlen : 1 < ips.length
        · rw [if_pos hlen] at h
          by_cases hpi : ev.promptInterrupt = true
          · rw [if_pos hpi] at h
            cases h
          · rw [if_neg hpi] at h
            exact hsw ips h
        · rw [if_neg hlen] at h
          exact hsw ips h

/-- C7: if cancellation is signaled while the sweep's tasks are
outstanding, the run ends in the `killedMidSweep` cancellation outcome —
which carries no records and writes no CSV — rather than any completed
result: a run that would have completed (same input, same world, no
interrupt) ends in `killedMidSweep` when interrupted, and no interrupted
run whatsoever can produce a `completed` outcome. -/
theorem c7_inflight_cancellation (sIn : PyStr) (opts : List PyStr) (w : World)
    (pi : Bool) (wr : WriteOutcome) (recs : List Record) (csv : CsvOutcome)
    (hrun : mainRun sIn opts ⟨pi, false, wr⟩ w = .completed recs csv) :
    mainRun sIn opts ⟨pi, true, wr⟩ w = .killedMidSweep ∧
    (∀ ev : Events, ev.sweepInterrupt = true →
      ∀ (recs' : List Record) (csv' : CsvOutcome),
        mainRun sIn opts ev w ≠ .completed recs' csv') := by
  refine ⟨?_, fun ev hsi recs' csv' =>
    mainRun_noComplete_of_interrupt sIn opts w ev hsi recs' csv'⟩
  simp only [mainRun] at hrun ⊢
  rcases hval : mainValidate sIn opts with m | cfg
  · simp only [hval] at hrun
    cases hrun
  · simp only [hval] at hrun ⊢
    rcases hsub : subnetCalcStr sIn with _ | info
    · simp only [hsub] at hrun
      cases hrun
    · simp only [hsub] at hrun ⊢
      rcases hh : info.hosts with _ | ips
      · simp only [hh] at hrun
        cases hrun
      · simp only [hh] at hrun ⊢
        by_cases hlen : 1 < ips.length
        · rw [if_pos hlen] at hrun ⊢
          cases pi with
          | true =>
            rw [if_pos rfl] at hrun
            cases hrun
          | false =>
            rw [if_neg (by simp)] at hrun ⊢
            unfold sweepPhase
            rw [if_pos rfl]
        · rw [if_neg hlen] at hrun ⊢
          unfold sweepPhase
          rw [if_pos rfl]

/-- C7 (witness): a single-host run that completes against a trivial world
is killed mid-sweep when the interrupt fires during `tp.map`. -/
theorem c7_inflight_cancellation_witness :
    mainRun "10.0.0.1/32".toList [] ⟨false, true, .ok⟩ { run := fun _ => [] }
      = .killedMidSweep ∧
    (∀ ev : Events, ev.sweepInterrupt = true →
      ∀ (recs' : List Record) (csv' : CsvOutcome),
        mainRun "10.0.0.1/32".toList [] ev { run := fun _ => [] } ≠ .completed recs' csv') :=
  c7_inflight_cancellation "10.0.0.1/32".toList [] { run := fun _ => [] } false .ok
    [⟨[], none, none, none, none, none, none, [], none⟩] .printedTable (by decide)

/-- C8 (counterexample): not every sweep is gated by the confirmation
prompt: for the single-host subnet `10.0.0.1/32` the source shows no
prompt (`len(ips) > 1` fails), so even with cancellation signaled at the
prompt the probe is dispatched and the sweep completes. -/
theorem c8_cex :
    mainRun "10.0.0.1/32".toList [] ⟨true, false, .ok⟩ { run := fun _ => [] }
      = .completed [⟨[], none, none, none, none, none, none, [], none⟩] .printedTable := by
  decide

/-- C8 (amended): sweeps over more than one host are gated by the
confirmation prompt — with cancellation signaled there, a run can only
complete when it sweeps at most one host, and any multi-host run that
would complete is instead cancelled at the prompt, with no probe
dispatched and no output artifact (the `cancelledAtPrompt` outcome);
single-host (`/32`) sweeps proceed without prompting. -/
theorem c8_prompt_amended (sIn : PyStr) (opts : List PyStr) (w : World)
    (wr : WriteOutcome) (si : Bool) (recs : List Record) (csv : CsvOutcome) :
    (mainRun sIn opts ⟨true, si, wr⟩ w = .completed recs csv → recs.length ≤ 1) ∧
    (mainRun sIn opts ⟨false, si, wr⟩ w = .completed recs csv → 1 < recs.length →
      mainRun sIn opts ⟨true, si, wr⟩ w = .cancelledAtPrompt) := by
  constructor
  · intro h
    simp only [mainRun] at h
    rcases hval : mainValidate sIn opts with m | cfg
    · simp only [hval] at h
      cases h
    · simp only [hval] at h
      rcases hsub : subnetCalcStr sIn with _ | info
      · simp only [hsub] at h
        cases h
      · simp only [hsub] at h
        rcases hh : info.hosts with _ | ips
        · simp only [hh] at h
          cases h
        · simp only [hh] at h
          by_cases hlen : 1 < ips.length
          · rw [if_pos hlen] at h
            simp at h
          · rw [if_neg hlen] at h
            rw [sweepPhase_completed _ _ _ _ _ _ h]
            omega
  · intro h hlen2
    simp only [mainRun] at h ⊢
    rcases hval : mainValidate sIn opts with m | cfg
    · simp only [hval] at h
      cases h
    · simp only [hval] at h ⊢
      rcases hsub : subnetCalcStr sIn with _ | info
      · simp only [hsub] at h
        cases h
      · simp only [hsub] at h ⊢
        rcases hh : info.hosts with _ | ips
        · simp only [hh] at h
          cases h
        · simp only [hh] at h ⊢
          by_cases hlen : 1 < ips.length
          · rw [if_pos hlen]
            simp
          · rw [if_neg hlen] at h
            have := sweepPhase_completed _ _ _ _ _ _ h
            omega

/-- C8 (witness): a two-host run over `10.0.0.0/30` that completes without
interrupts is cancelled at the prompt when the interrupt fires there. -/
theorem c8_prompt_amended_witness :
    mainRun "10.0.0.0/30".toList [] ⟨true, false, .ok⟩ { run := fun _ => [] }
      = .cancelledAtPrompt :=
  (c8_prompt_amended "10.0.0.0/30".toList [] { run := fun _ => [] } WriteOutcome.ok false
    [⟨[], none, none, none, none, none, none, [], none⟩,
     ⟨[], none, none, none, none, none, none, [], none⟩] .printedTable).2
    (by decide) (by decide)

/-- C9 (counterexample): a CSV write failure that is not a
`PermissionError` — e.g. a bad path raising `FileNotFoundError` — is not
caught: the run crashes instead of falling back to printing the table. -/
theorem c9_cex :
    mainRun "10.0.0.1/32".toList ["--csv=missing/out.csv".toList]
      ⟨false, false, .otherError⟩ { run := fun _ => [] } = .crashed := by
  decide

/-- C9 (amended): when the CSV write fails with a `PermissionError` the
program falls back to printing the result table to standard output instead
of crashing or failing silently; a successful write produces the CSV; any
other write error (such as a path error) propagates and crashes the run. -/
theorem c9_csv_fallback (cfg : Config) (records : List Record)
    (hcsv : cfg.use_csv = true) :
    csvPhase cfg records .permissionError = .completed records .printedFallback ∧
    csvPhase cfg records .ok = .completed records .wroteCsv ∧
    csvPhase cfg records .otherError = .crashed := by
  simp [csvPhase, hcsv]

/-- C9 (witness): the fallback behaviour at a concrete CSV-writing
configuration with an empty record list. -/
theorem c9_csv_fallback_witness :
    csvPhase ⟨true, "out.csv".toList, 256, []⟩ [] .permissionError
      = .completed [] .printedFallback ∧
    csvPhase ⟨true, "out.csv".toList, 256, []⟩ [] .ok
      = .completed [] .wroteCsv ∧
    csvPhase ⟨true, "out.csv".toList, 256, []⟩ [] .otherError
      = .crashed :=
  c9_csv_fallback _ [] (by decide)

end MPing
